import Mathlib

/-!
Verification development for the jots-people-tracker Obsidian plugin.

The embedding models the link-decoration engine of `src/main.ts` together
with the settings surface of `src/settings.ts`:

* JavaScript string operations used by `cleanLinkPath` are implemented over
  `List Char` so that every definition evaluates by kernel reduction.
* The host editor (Obsidian) is a record of oracles (`Host`): the link-path
  resolver `metadataCache.getFirstLinkpathDest` (which may throw, modelled
  with `Except`), `metadataCache.getFileCache`, the vault adapter's
  `exists` and `getResourcePath`, and the JavaScript `decodeURIComponent`
  round-trip test used by `cleanLinkPath`.  Following the external-interface
  contract (`exists(path) -> bool`) the adapter existence check is modelled
  synchronously, which matches how `processPersonLink` uses it.
* The DOM is a finite store of elements (classes, attributes, inline style
  custom properties, text content) keyed by node ids, plus a parent map;
  `Element.closest` is the usual self-inclusive upward search.
* DOM-mutating operations also count the number of DOM write calls
  (`setAttribute`, `style.setProperty`, `addClass`) they perform, so that
  statements about "zero DOM writes" are expressible.
-/

namespace PeopleTracker

/-! ## JavaScript-style string helpers -/

/-- Truthiness of a JavaScript string-or-null value: `null`/`undefined` and
the empty string are falsy. -/
def jsTruthyStr : Option String → Bool
  | none => false
  | some s => !(s == "")

/-- JavaScript `String.prototype.trim`, over the character list. -/
def jsTrim (s : String) : String :=
  ⟨((s.data.dropWhile Char.isWhitespace).reverse.dropWhile Char.isWhitespace).reverse⟩

/-- Indices at which the pattern `sub` occurs in `l`. -/
def subOccs (sub l : List Char) : List Nat :=
  (List.range (l.length + 1)).filter (fun i => sub.isPrefixOf (l.drop i))

/-- JavaScript `String.prototype.includes` for a fixed substring. -/
def containsSub (l sub : List Char) : Bool :=
  !(subOccs sub l).isEmpty

/-- The characters before the first occurrence of `sub`
(JavaScript `s.split(sub)[0]`); `l` itself when `sub` does not occur. -/
def beforeFirst (l sub : List Char) : List Char :=
  match subOccs sub l with
  | [] => l
  | i :: _ => l.take i

/-- The characters after the last occurrence of `sub`
(JavaScript `s.split(sub).pop()`); `l` itself when `sub` does not occur. -/
def afterLast (l sub : List Char) : List Char :=
  match (subOccs sub l).getLast? with
  | none => l
  | some i => l.drop (i + sub.length)

/-- Collapse every maximal run of whitespace into a single space
(JavaScript `s.replace(/\s+/g, ' ')`); the flag records whether the
previous character was whitespace. -/
def collapseWsAux : Bool → List Char → List Char
  | _, [] => []
  | prevWs, c :: rest =>
    if c.isWhitespace then
      if prevWs then collapseWsAux true rest
      else ' ' :: collapseWsAux true rest
    else c :: collapseWsAux false rest

/-- `collapseWsAux` lifted to strings. -/
def collapseWs (s : String) : String := ⟨collapseWsAux false s.data⟩

/-- Percent-encoding of the character set handled by `cleanLinkPath`
when the input fails the `decodeURIComponent` round trip. -/
def encodeChar (c : Char) : String :=
  if c = '%' then "%25"
  else if c = '[' then "%5B"
  else if c = ']' then "%5D"
  else if c = '|' then "%7C"
  else if c = '&' then "%26"
  else if c = '?' then "%3F"
  else if c = '#' then "%23"
  else String.singleton c

/-- Encode the special characters of a whole string. -/
def encodeSpecials (s : String) : String := String.join (s.data.map encodeChar)

/-- JavaScript `String.prototype.startsWith`: case-sensitive character-wise
prefix test.  This is the whole person-classification test of
`processAllLinksInView` (`targetFile.path.startsWith(peopleFolderPath)`). -/
def jsStartsWith (s pre : String) : Bool := pre.data.isPrefixOf s.data

/-! ## Data model: notes, metadata, host, settings -/

/-- A resolved note handle (`TFile`): only its vault path matters here. -/
structure TFile where
  path : String
deriving DecidableEq

/-- Parsed front matter; the core reads only the `avatar` key. -/
structure Frontmatter where
  avatar : Option String
deriving DecidableEq

/-- The metadata cache entry of a note (`getFileCache` result). -/
structure FileCache where
  frontmatter : Option Frontmatter
deriving DecidableEq

/-- The host-editor oracles consumed by the core.  `resolveLink` models
`metadataCache.getFirstLinkpathDest` and may throw (`Except.error`);
`decodeOk` models whether `decodeURIComponent` succeeds on a string. -/
structure Host where
  resolveLink : String → String → Except String (Option TFile)
  getFileCache : TFile → Option FileCache
  adapterExists : String → Bool
  getResourcePath : String → String
  decodeOk : String → Bool

/-- The plugin settings record (`PeopleTrackerSettings` in `settings.ts`). -/
structure PeopleTrackerSettings where
  enableAvatars : Bool
  avatarFolderPath : String
  peopleFolderPath : String
deriving DecidableEq

/-- `DEFAULT_SETTINGS` from `settings.ts`. -/
def DEFAULT_SETTINGS : PeopleTrackerSettings :=
  { enableAvatars := true, avatarFolderPath := "", peopleFolderPath := "Sets/People" }

/-! ## cleanLinkPath and the link resolver -/

/-- `cleanLinkPath(path, isTextContent)` from `main.ts`: trim, keep the part
before an alias bar and before a closing `]]`, keep the part after the last
`[[` (falling back to the previous value when that part trims to nothing);
then either collapse whitespace (text content) or keep the string as-is when
it already decodes, else percent-encode the special set and collapse
whitespace. -/
def cleanLinkPath (decodeOk : String → Bool) (path0 : String) (isTextContent : Bool) :
    String :=
  if path0 = "" then ""
  else
    let p1 := jsTrim path0
    let p2 := if containsSub p1.data "|".data then jsTrim ⟨beforeFirst p1.data "|".data⟩ else p1
    let p3 :=
      if containsSub p2.data "]]".data then jsTrim ⟨beforeFirst p2.data "]]".data⟩ else p2
    let p4 :=
      if containsSub p3.data "[[".data then
        let t := jsTrim ⟨afterLast p3.data "[[".data⟩
        if t = "" then p3 else t
      else p3
    if isTextContent then collapseWs p4
    else if decodeOk p4 then p4
    else collapseWs (encodeSpecials p4)

/-- One call to the host resolver with the surrounding `try`/`catch`:
a thrown error is swallowed and counts as no match. -/
def tryResolve (h : Host) (cand sourcePath : String) : Option TFile :=
  match h.resolveLink cand sourcePath with
  | .ok r => r
  | .error _ => none

/-- A DOM element as the core observes it: class list, attributes, inline
style custom properties, and text content (`none` models a null
`textContent`). -/
structure Elem where
  classes : List String
  attrs : List (String × String)
  styleProps : List (String × String)
  text : Option String
deriving DecidableEq

/-- Generic key lookup in a key-value list (first binding wins). -/
def getKV {κ α : Type} [DecidableEq κ] : List (κ × α) → κ → Option α
  | [], _ => none
  | p :: rest, k => if p.1 = k then some p.2 else getKV rest k

/-- `element.getAttribute(name)`. -/
def getAttr (el : Elem) (name : String) : Option String := getKV el.attrs name

/-- `element.style.getPropertyValue(name)` for custom properties. -/
def getStyle (el : Elem) (name : String) : Option String := getKV el.styleProps name

/-- Step 1 of `tryGetLinkTarget`: for editor-mode links (`cm-underline`
class with truthy text content), try the cleaned text. -/
def resolveStep1 (h : Host) (el : Elem) (sourcePath : String) : Option TFile :=
  if el.classes.contains "cm-underline" && jsTruthyStr el.text then
    tryResolve h (cleanLinkPath h.decodeOk (el.text.getD "") true) sourcePath
  else none

/-- One iteration of the attribute loop of `tryGetLinkTarget`: a missing or
empty attribute is skipped. -/
def resolveAttrStep (h : Host) (el : Elem) (sourcePath attrName : String) : Option TFile :=
  if jsTruthyStr (getAttr el attrName) then
    tryResolve h (cleanLinkPath h.decodeOk ((getAttr el attrName).getD "") false) sourcePath
  else none

/-- Step 3 of `tryGetLinkTarget`: regular text content, only when the
element is not an editor underline. -/
def resolveStep3 (h : Host) (el : Elem) (sourcePath : String) : Option TFile :=
  if jsTruthyStr el.text && !(el.classes.contains "cm-underline") then
    tryResolve h (cleanLinkPath h.decodeOk (el.text.getD "") true) sourcePath
  else none

/-- `tryGetLinkTarget(element, sourcePath)` from `main.ts`: first the
underline text, then the `data-href` and `href` attributes, finally the
plain text content; each step's host error is caught locally and the next
candidate is tried; the function never throws. -/
def tryGetLinkTarget (h : Host) (el : Elem) (sourcePath : String) : Option TFile :=
  match resolveStep1 h el sourcePath with
  | some f => some f
  | none =>
    match resolveAttrStep h el sourcePath "data-href" with
    | some f => some f
    | none =>
      match resolveAttrStep h el sourcePath "href" with
      | some f => some f
      | none => resolveStep3 h el sourcePath

/-- The candidate strings of the Link Resolver in the order the claim
states them: the normalized visible text for editor underlines, then the
`data-href` and `href` attributes, then the normalized text content when
the role is not editor-underline.  An element with missing or empty text
contributes no text candidate, and a missing or empty attribute contributes
no attribute candidate. -/
def resolverSpecCandidates (dk : String → Bool) (el : Elem) : List String :=
  (if el.classes.contains "cm-underline" && jsTruthyStr el.text then
      [cleanLinkPath dk (el.text.getD "") true]
    else []) ++
  (if jsTruthyStr (getAttr el "data-href") then
      [cleanLinkPath dk ((getAttr el "data-href").getD "") false]
    else []) ++
  (if jsTruthyStr (getAttr el "href") then
      [cleanLinkPath dk ((getAttr el "href").getD "") false]
    else []) ++
  (if jsTruthyStr el.text && !(el.classes.contains "cm-underline") then
      [cleanLinkPath dk (el.text.getD "") true]
    else [])

/-- The resolver as the specification describes it: the first candidate the
host maps to a note wins; a host error counts as no match for that
candidate. -/
def resolverSpec (h : Host) (el : Elem) (sourcePath : String) : Option TFile :=
  (resolverSpecCandidates h.decodeOk el).findSome? (fun c => tryResolve h c sourcePath)

/-! ## The DOM store and the write primitives -/

/-- A DOM snapshot: elements keyed by node id (in document order) and a
parent map. -/
structure Dom where
  elems : List (Nat × Elem)
  parent : List (Nat × Nat)
deriving DecidableEq

/-- Look up the element stored under a node id. -/
def findElem (d : Dom) (i : Nat) : Option Elem := getKV d.elems i

/-- Look up the parent of a node. -/
def parentOf (d : Dom) (i : Nat) : Option Nat := getKV d.parent i

/-- Replace the element stored under `i` (a no-op when `i` is absent). -/
def updateElem (d : Dom) (i : Nat) (f : Elem → Elem) : Dom :=
  { d with elems := d.elems.map (fun p => if p.1 = i then (p.1, f p.2) else p) }

/-- Set or replace the binding of `k` in a key-value list; every entry with
key `k` receives the new value, and a fresh key is appended. -/
def setKeyAll {α : Type} (l : List (String × α)) (k : String) (v : α) :
    List (String × α) :=
  if l.any (fun p => decide (p.1 = k)) then l.map (fun p => if p.1 = k then (k, v) else p)
  else l ++ [(k, v)]

/-- `element.setAttribute(k, v)` as a store update. -/
def setAttrOp (d : Dom) (i : Nat) (k v : String) : Dom :=
  updateElem d i (fun e => { e with attrs := setKeyAll e.attrs k v })

/-- `element.style.setProperty(k, v)` as a store update. -/
def setStyleOp (d : Dom) (i : Nat) (k v : String) : Dom :=
  updateElem d i (fun e => { e with styleProps := setKeyAll e.styleProps k v })

/-- `classList` addition: append each class that is not already present. -/
def addClassList (l : List String) (cs : List String) : List String :=
  cs.foldl (fun acc c => if acc.contains c then acc else acc ++ [c]) l

/-- `element.addClass(...cs)` as a store update. -/
def addClassesOp (d : Dom) (i : Nat) (cs : List String) : Dom :=
  updateElem d i (fun e => { e with classes := addClassList e.classes cs })

/-- `element.closest(sel)` for a class selector: the nearest element in the
self-then-ancestors chain whose class list contains `cls`.  The fuel bounds
the ancestor chain by the size of the parent map. -/
def closestAux (d : Dom) (cls : String) : Nat → Nat → Option Nat
  | 0, _ => none
  | fuel + 1, i =>
    match findElem d i with
    | none => none
    | some e =>
      if e.classes.contains cls then some i
      else
        match parentOf d i with
        | none => none
        | some p => closestAux d cls fuel p

/-- `element.closest('.cls')` starting from node `i`. -/
def closest (d : Dom) (i : Nat) (cls : String) : Option Nat :=
  closestAux d cls (d.parent.length + 1) i

/-- Attribute of the node stored under `i`. -/
def getAttrAt (d : Dom) (i : Nat) (k : String) : Option String :=
  (findElem d i).bind (fun e => getAttr e k)

/-- Style custom property of the node stored under `i`. -/
def getStyleAt (d : Dom) (i : Nat) (k : String) : Option String :=
  (findElem d i).bind (fun e => getStyle e k)

/-- Whether the node stored under `i` carries class `c`. -/
def hasClassAt (d : Dom) (i : Nat) (c : String) : Bool :=
  match findElem d i with
  | some e => e.classes.contains c
  | none => false

/-! ## The decorator (`processPersonLink`) and the view scan -/

/-- The classes the decorator writes. -/
def classWrites : List String := ["data-link-icon", "person-link", "person-link-processed"]

/-- The avatar front-matter value of a cache entry, as a plain string. -/
def avatarNameOf (cache : FileCache) : String :=
  ((cache.frontmatter.bind (fun fm => fm.avatar)).getD "")

/-- Truthiness of `cache?.frontmatter?.avatar`. -/
def cacheAvatarTruthy (cache : FileCache) : Bool :=
  jsTruthyStr (cache.frontmatter.bind (fun fm => fm.avatar))

/-- The chain of guards of `processPersonLink` in `main.ts`: the avatar
name must be truthy, the avatar folder configured, and the vault adapter
must report the computed avatar path as existing. -/
def decorCond (h : Host) (s : PeopleTrackerSettings) (cache : FileCache) : Bool :=
  match cache.frontmatter.bind (fun fm => fm.avatar) with
  | none => false
  | some a =>
    decide (a ≠ "") && decide (s.avatarFolderPath ≠ "") &&
      h.adapterExists (s.avatarFolderPath ++ "/" ++ a)

/-- The three write calls of the decorator on the host element, in source
order: `setAttribute('data-link-avatar', url)`,
`style.setProperty('--data-link-avatar', url(...))`, and
`addClass('data-link-icon', 'person-link', 'person-link-processed')`. -/
def writeChain (d : Dom) (target : Nat) (imageUrl : String) : Dom :=
  addClassesOp
    (setStyleOp (setAttrOp d target "data-link-avatar" imageUrl)
      target "--data-link-avatar" ("url(" ++ imageUrl ++ ")"))
    target classWrites

/-- The write tail of `processPersonLink` (its lines after the guards):
resolve the resource URL, pick `closest('.cm-hmd-internal-link')` or the
element itself as the host element, run the three write calls there, and,
when the closest container is a different node, add the two visual classes
to the inner element.  The second component counts the DOM write calls
performed. -/
def applyWrites (h : Host) (s : PeopleTrackerSettings) (d : Dom) (linkEl : Nat)
    (avatarName : String) : Dom × Nat :=
  let imageUrl := h.getResourcePath (s.avatarFolderPath ++ "/" ++ avatarName)
  match closest d linkEl "cm-hmd-internal-link" with
  | some p =>
    if p ≠ linkEl then
      (addClassesOp (writeChain d p imageUrl) linkEl ["data-link-icon", "person-link"], 4)
    else (writeChain d p imageUrl, 3)
  | none => (writeChain d linkEl imageUrl, 3)

/-- The host element the decorator writes to: the closest
`cm-hmd-internal-link` container, the element itself when there is none. -/
def closestTarget (d : Dom) (i : Nat) : Nat :=
  (closest d i "cm-hmd-internal-link").getD i

/-- The element-level effect of the three write calls of `writeChain`. -/
def writeF (imageUrl : String) (e : Elem) : Elem :=
  { classes := addClassList e.classes classWrites
    attrs := setKeyAll e.attrs "data-link-avatar" imageUrl
    styleProps := setKeyAll e.styleProps "--data-link-avatar" ("url(" ++ imageUrl ++ ")")
    text := e.text }

/-- `processPersonLink(linkEl, cache)` from `main.ts`.  A missing
`frontmatter` makes the JavaScript property access throw; the per-candidate
`catch` in the caller swallows it before any write, so that case leaves the
store unchanged.  Each failing guard returns with a console warning and no
decoration; there is no default-avatar fallback in this function. -/
def processPersonLink (h : Host) (s : PeopleTrackerSettings) (d : Dom) (linkEl : Nat)
    (cache : FileCache) : Dom × Nat :=
  match cache.frontmatter with
  | none => (d, 0)
  | some fm =>
    match fm.avatar with
    | none => (d, 0)
    | some avatarName =>
      if avatarName = "" then (d, 0)
      else if s.avatarFolderPath = "" then (d, 0)
      else if h.adapterExists (s.avatarFolderPath ++ "/" ++ avatarName) = false then (d, 0)
      else applyWrites h s d linkEl avatarName

/-- The person-classification test of the scan:
`targetFile.path.startsWith(this.settings.peopleFolderPath)`. -/
def isPersonPath (s : PeopleTrackerSettings) (path : String) : Bool :=
  jsStartsWith path s.peopleFolderPath

/-- One iteration of the candidate loop of `processAllLinksInView`: skip
elements already carrying the sentinel, redirect `cm-underline` candidates
to their closest `cm-hmd-internal-link` container, resolve, classify by
path prefix, require a truthy `cache?.frontmatter?.avatar`, then decorate.
The accumulator carries the store and the running DOM-write count. -/
def scanStep (h : Host) (s : PeopleTrackerSettings) (sourcePath : String)
    (acc : Dom × Nat) (cand : Nat) : Dom × Nat :=
  let d := acc.1
  match findElem d cand with
  | none => acc
  | some el =>
    if el.classes.contains "person-link-processed" then acc
    else
      let elementToProcess :=
        if el.classes.contains "cm-underline" then
          (closest d cand "cm-hmd-internal-link").getD cand
        else cand
      match tryGetLinkTarget h el sourcePath with
      | none => acc
      | some tf =>
        if isPersonPath s tf.path then
          match h.getFileCache tf with
          | none => acc
          | some cache =>
            if cacheAvatarTruthy cache then
              let r := processPersonLink h s d elementToProcess cache
              (r.1, acc.2 + r.2)
            else acc
        else acc

/-- The candidate snapshot of `processAllLinksInView`: every element
matching `a.internal-link`, `.cm-underline` or `.cm-hmd-internal-link`, in
document order. -/
def candidates (d : Dom) : List Nat :=
  (d.elems.filter (fun p =>
    p.2.classes.contains "internal-link" || p.2.classes.contains "cm-underline" ||
      p.2.classes.contains "cm-hmd-internal-link")).map (fun p => p.1)

/-- `processAllLinksInView(view)` from `main.ts`: nothing happens when the
view's content element is not connected; otherwise every candidate of the
initial snapshot is processed in order.  Note that no step of this sweep
consults the `enableAvatars` setting. -/
def processAllLinksInView (h : Host) (s : PeopleTrackerSettings) (d : Dom)
    (sourcePath : String) (connected : Bool) : Dom × Nat :=
  if connected = false then (d, 0)
  else (candidates d).foldl (scanStep h s sourcePath) (d, 0)

/-! ## The reactive driver: timers and scan scheduling

The timer layer of `main.ts` is modelled operationally.  A pending timer
callback either runs `processCurrentView` (the untracked follow-up that
`handleEditorChange` schedules) or runs the view sweep directly (the
tracked `processTimer`).  The simulation counts executed sweeps; the view
is assumed present throughout, which is the situation the debounce claim
speaks about. -/

/-- The two timer callbacks the driver schedules. -/
inductive TAct where
  | actPCV : TAct
  | actScan : TAct
deriving DecidableEq

/-- A pending `setTimeout` callback: creation id, absolute fire time,
callback. -/
structure PTimer where
  tid : Nat
  fireAt : Nat
  act : TAct
deriving DecidableEq

/-- Driver state: fresh-id counter, the tracked `processTimer` handle, the
pending timers, and the number of executed view sweeps. -/
structure Driver where
  nextId : Nat
  tracked : Option Nat
  pending : List PTimer
  scansRun : Nat
deriving DecidableEq

/-- The driver state at plugin load. -/
def initDriver : Driver := { nextId := 0, tracked := none, pending := [], scansRun := 0 }

/-- `if (this.processTimer) clearTimeout(this.processTimer)`. -/
def clearTrackedTimer (st : Driver) : Driver :=
  match st.tracked with
  | none => st
  | some t => { st with pending := st.pending.filter (fun tm => decide (tm.tid ≠ t)) }

/-- `setTimeout(cb, delay)` at absolute time `fireAt`: returns the new
state and the created handle. -/
def scheduleTimer (st : Driver) (fireAt : Nat) (a : TAct) : Driver × Nat :=
  ({ st with pending := st.pending ++ [⟨st.nextId, fireAt, a⟩], nextId := st.nextId + 1 },
    st.nextId)

/-- `processCurrentView` at time `now`: cancel the tracked timer, run the
sweep immediately, and schedule the tracked 100 ms follow-up sweep. -/
def processCurrentView (now : Nat) (st : Driver) : Driver :=
  let st1 := clearTrackedTimer st
  let st2 := { st1 with scansRun := st1.scansRun + 1 }
  let r := scheduleTimer st2 (now + 100) TAct.actScan
  { r.1 with tracked := some r.2 }

/-- `handleEditorChange` at time `now`: run `processCurrentView` and
schedule an additional, untracked 100 ms call to it. -/
def handleEditorChange (now : Nat) (st : Driver) : Driver :=
  (scheduleTimer (processCurrentView now st) (now + 100) TAct.actPCV).1

/-- The pending timer that fires next: earliest fire time, ties broken by
creation order, as the JavaScript event loop does. -/
def earliestTimer (l : List PTimer) : Option PTimer :=
  l.foldl (fun best t =>
    match best with
    | none => some t
    | some b =>
      if t.fireAt < b.fireAt ∨ (t.fireAt = b.fireAt ∧ t.tid < b.tid) then some t else some b)
    none

/-- Fire one pending timer: remove it, then run its callback. -/
def fireTimer (t : PTimer) (st : Driver) : Driver :=
  let st1 := { st with pending := st.pending.filter (fun tm => decide (tm.tid ≠ t.tid)) }
  match t.act with
  | TAct.actScan => { st1 with scansRun := st1.scansRun + 1 }
  | TAct.actPCV => processCurrentView t.fireAt st1

/-- Run the driver against a time-ordered list of editor-change events,
interleaving them with timer firings; each fuel unit consumes one event or
one timer. -/
def runDriver : Nat → List Nat → Driver → Driver
  | 0, _, st => st
  | fuel + 1, evs, st =>
    match evs, earliestTimer st.pending with
    | [], none => st
    | e :: rest, none => runDriver fuel rest (handleEditorChange e st)
    | [], some t => runDriver fuel [] (fireTimer t st)
    | e :: rest, some t =>
      if e ≤ t.fireAt then runDriver fuel rest (handleEditorChange e st)
      else runDriver fuel (e :: rest) (fireTimer t st)

/-- The number of pending tracked sweep timers. -/
def scanTimerCount (st : Driver) : Nat :=
  (st.pending.filter (fun t => decide (t.act = TAct.actScan))).length

/-! ## Settings persistence: `saveSettings` and `loadSettings` -/

/-- The four validity checks of `saveSettings`. -/
def saveValid (adapterExists : String → Bool) (s : PeopleTrackerSettings) : Bool :=
  (!(s.avatarFolderPath == "")) && (!(s.peopleFolderPath == "")) &&
    adapterExists s.avatarFolderPath && adapterExists s.peopleFolderPath

/-- `saveSettings` from `main.ts` as a transition on the persisted
mapping: each failing check warns and returns without calling `saveData`,
leaving the previously persisted settings in place; only when every check
passes is the current settings record persisted.  The second component
collects the emitted console warnings. -/
def saveSettings (adapterExists : String → Bool) (s : PeopleTrackerSettings)
    (persisted : Option PeopleTrackerSettings) :
    Option PeopleTrackerSettings × List String :=
  if s.avatarFolderPath = "" then (persisted, ["Avatar folder path is required"])
  else if s.peopleFolderPath = "" then (persisted, ["People folder path is required"])
  else if adapterExists s.avatarFolderPath = false then
    (persisted, ["Avatar folder does not exist: " ++ s.avatarFolderPath])
  else if adapterExists s.peopleFolderPath = false then
    (persisted, ["People folder does not exist: " ++ s.peopleFolderPath])
  else (some s, [])

/-- A persisted JSON-ish value as stored by the host. -/
inductive SVal where
  | b : Bool → SVal
  | s : String → SVal
  | null : SVal
deriving DecidableEq

/-- A persisted settings mapping: an object as a key-value list. -/
abbrev Obj := List (String × SVal)

/-- `Object.assign(target, src)`: copy the bindings of `src` into `target`
in order, overwriting existing keys. -/
def objectAssign (target src : Obj) : Obj :=
  src.foldl (fun t kv => setKeyAll t kv.1 kv.2) target

/-- `DEFAULT_SETTINGS` as the raw mapping `Object.assign` consumes. -/
def DEFAULT_SETTINGS_obj : Obj :=
  [("enableAvatars", SVal.b true), ("avatarFolderPath", SVal.s ""),
    ("peopleFolderPath", SVal.s "Sets/People")]

/-- `loadSettings` from `main.ts`:
`Object.assign({}, DEFAULT_SETTINGS, await this.loadData())`, where
`loadData` yields the persisted mapping or nothing at all. -/
def loadSettings (loadData : Option Obj) : Obj :=
  objectAssign (objectAssign [] DEFAULT_SETTINGS_obj) (loadData.getD [])


/-! ## Frame relation and driver invariant -/

/-- The decorator's write surface: `d'` differs from `d` at most by setting
the `data-link-avatar` attribute, the `--data-link-avatar` custom property,
and adding classes from `classWrites`; node ids, parents, text, and every
other attribute, class and style property are exactly unchanged, and
nothing is ever removed. -/
def FrameLe (d d' : Dom) : Prop :=
  d'.parent = d.parent ∧
  d'.elems.map Prod.fst = d.elems.map Prod.fst ∧
  ∀ i e, findElem d i = some e → ∃ e', findElem d' i = some e' ∧
    e'.text = e.text ∧
    (∀ k, k ≠ "data-link-avatar" → getAttr e' k = getAttr e k) ∧
    (∀ k, k ≠ "--data-link-avatar" → getStyle e' k = getStyle e k) ∧
    ((getAttr e "data-link-avatar").isSome = true →
      (getAttr e' "data-link-avatar").isSome = true) ∧
    ((getStyle e "--data-link-avatar").isSome = true →
      (getStyle e' "--data-link-avatar").isSome = true) ∧
    (∀ c, c ∈ e.classes → c ∈ e'.classes) ∧
    (∀ c, c ∈ e'.classes → c ∈ e.classes ∨ c ∈ classWrites)

/-- Invariant of the driver simulation: pending timer ids are fresh-bounded
and distinct, and every pending tracked sweep timer is the one recorded in
`processTimer`. -/
def DriverInv (st : Driver) : Prop :=
  (∀ t ∈ st.pending, t.tid < st.nextId) ∧
  (st.pending.map (fun t => t.tid)).Nodup ∧
  (∀ t ∈ st.pending, t.act = TAct.actScan → st.tracked = some t.tid)

/-! ## Concrete fixtures used by the closed counterexamples and witnesses -/

/-- A host whose resolver maps the link text `Ada` to a note in the people
folder whose front matter carries `avatar: ada.png`; every path exists and
resource URLs get an `app://vault/` prefix. -/
def hostAda : Host :=
  { resolveLink := fun c _ =>
      Except.ok (if c = "Ada" then some ⟨"Sets/People/Ada.md"⟩ else none)
    getFileCache := fun _ => some ⟨some ⟨some "ada.png"⟩⟩
    adapterExists := fun _ => true
    getResourcePath := fun p => "app://vault/" ++ p
    decodeOk := fun _ => true }

/-- Like `hostAda`, but the resolved note has no `avatar` front-matter key. -/
def hostNoAvatar : Host :=
  { resolveLink := fun c _ =>
      Except.ok (if c = "Ada" then some ⟨"Sets/People/Ada.md"⟩ else none)
    getFileCache := fun _ => some ⟨some ⟨none⟩⟩
    adapterExists := fun _ => true
    getResourcePath := fun p => "app://vault/" ++ p
    decodeOk := fun _ => true }

/-- Settings with avatars enabled and both folders configured. -/
def settingsOn : PeopleTrackerSettings :=
  { enableAvatars := true, avatarFolderPath := "_Meta/Avatars"
    peopleFolderPath := "Sets/People" }

/-- The same settings with the avatars toggle off. -/
def settingsOff : PeopleTrackerSettings :=
  { enableAvatars := false, avatarFolderPath := "_Meta/Avatars"
    peopleFolderPath := "Sets/People" }

/-- A preview-mode anchor: `<a class="internal-link">Ada</a>`. -/
def elPreview : Elem := ⟨["internal-link"], [], [], some "Ada"⟩

/-- A one-anchor preview DOM. -/
def domPreview : Dom := { elems := [(0, elPreview)], parent := [] }

/-- An editor-mode DOM: node 0 is the `cm-hmd-internal-link` container,
node 1 the inner `cm-underline` span. -/
def domEditor : Dom :=
  { elems := [(0, ⟨["cm-hmd-internal-link"], [], [], some "Ada"⟩),
      (1, ⟨["cm-underline"], [], [], some "Ada"⟩)]
    parent := [(1, 0)] }

/-- Two nested `cm-hmd-internal-link` containers: node 1 sits inside
node 0 and itself carries the container class. -/
def domNested : Dom :=
  { elems := [(0, ⟨["cm-hmd-internal-link"], [], [], some "Ada"⟩),
      (1, ⟨["cm-hmd-internal-link"], [], [], some "Ada"⟩)]
    parent := [(1, 0)] }

/-- A cache entry whose front matter names the avatar `ada.png`. -/
def cacheAda : FileCache := ⟨some ⟨some "ada.png"⟩⟩

/-! ## Helper lemmas: key-value lookup -/

theorem getKV_nil {κ α : Type} [DecidableEq κ] (k : κ) :
    getKV ([] : List (κ × α)) k = none := rfl

theorem getKV_cons {κ α : Type} [DecidableEq κ] (p : κ × α) (l : List (κ × α)) (k : κ) :
    getKV (p :: l) k = if p.1 = k then some p.2 else getKV l k := rfl

theorem map_eq_self_of {α : Type} (l : List α) (f : α → α) (h : ∀ x ∈ l, f x = x) :
    l.map f = l := by
  induction l with
  | nil => rfl
  | cons x xs ih =>
    simp only [List.map_cons, h x (by simp)]
    rw [ih (fun y hy => h y (by simp [hy]))]

theorem getKV_map_upd {κ α : Type} [DecidableEq κ] (l : List (κ × α)) (k : κ)
    (f : α → α) (k' : κ) :
    getKV (l.map (fun p => if p.1 = k then (p.1, f p.2) else p)) k'
      = if k' = k then (getKV l k).map f else getKV l k' := by
  induction l with
  | nil => by_cases h : k' = k <;> simp [getKV, h]
  | cons p rest ih =>
    simp only [List.map_cons, getKV_cons]
    by_cases hpk : p.1 = k
    · by_cases hk : k' = k
      · subst hk
        simp [hpk, ih]
      · simp only [hpk, if_true, if_pos hpk]
        have h2 : ¬(k = k') := fun hc => hk hc.symm
        simp [h2, ih, hk, hpk]
    · by_cases hk : k' = k
      · subst hk
        simp [hpk, ih]
      · by_cases hpj : p.1 = k'
        · simp [hpk, hpj, ih, hk]
        · simp [hpk, hpj, ih, hk]

theorem getKV_map_repl {κ α : Type} [DecidableEq κ] (l : List (κ × α)) (k : κ)
    (v : α) (k' : κ) :
    getKV (l.map (fun p => if p.1 = k then (k, v) else p)) k'
      = if k' = k then (getKV l k).map (fun _ => v) else getKV l k' := by
  have hfun : (fun p : κ × α => if p.1 = k then (k, v) else p)
      = (fun p : κ × α => if p.1 = k then (p.1, (fun _ => v) p.2) else p) := by
    funext p
    by_cases hp : p.1 = k <;> simp [hp]
  rw [hfun]
  exact getKV_map_upd l k (fun _ => v) k'

theorem getKV_append {κ α : Type} [DecidableEq κ] (l1 l2 : List (κ × α)) (k : κ) :
    getKV (l1 ++ l2) k
      = match getKV l1 k with
        | some v => some v
        | none => getKV l2 k := by
  induction l1 with
  | nil => simp [getKV]
  | cons p rest ih =>
    by_cases hp : p.1 = k
    · simp [getKV_cons, hp]
    · simp [getKV_cons, hp, ih]

theorem getKV_eq_none_of_not_any {κ α : Type} [DecidableEq κ] (l : List (κ × α)) (k : κ)
    (h : l.any (fun p => decide (p.1 = k)) = false) : getKV l k = none := by
  induction l with
  | nil => rfl
  | cons p rest ih =>
    simp only [List.any_cons, Bool.or_eq_false_iff, decide_eq_false_iff_not] at h
    simp [getKV_cons, h.1, ih (by simpa using h.2)]

theorem getKV_isSome_of_any {κ α : Type} [DecidableEq κ] (l : List (κ × α)) (k : κ)
    (h : l.any (fun p => decide (p.1 = k)) = true) : (getKV l k).isSome = true := by
  induction l with
  | nil => simp at h
  | cons p rest ih =>
    by_cases hp : p.1 = k
    · simp [getKV_cons, hp]
    · have hrest : rest.any (fun p => decide (p.1 = k)) = true := by
        simpa [hp] using h
      simp [getKV_cons, hp, ih hrest]

theorem getKV_setKeyAll_self {α : Type} (l : List (String × α)) (k : String) (v : α) :
    getKV (setKeyAll l k v) k = some v := by
  unfold setKeyAll
  cases hany : l.any (fun p => decide (p.1 = k)) with
  | true =>
    rw [if_pos rfl, getKV_map_repl, if_pos rfl]
    have hs := getKV_isSome_of_any l k hany
    cases h : getKV l k with
    | none => rw [h] at hs; simp at hs
    | some w => simp
  | false =>
    rw [if_neg (by decide), getKV_append, getKV_eq_none_of_not_any l k hany]
    simp [getKV]

theorem getKV_setKeyAll_ne {α : Type} (l : List (String × α)) (k : String) (v : α)
    (k' : String) (h : k' ≠ k) : getKV (setKeyAll l k v) k' = getKV l k' := by
  unfold setKeyAll
  cases hany : l.any (fun p => decide (p.1 = k)) with
  | true => rw [if_pos rfl, getKV_map_repl, if_neg h]
  | false =>
    rw [if_neg (by decide), getKV_append]
    have hk2 : getKV [(k, v)] k' = none := by
      simp [getKV]
      exact fun hc => absurd hc.symm h
    rw [hk2]
    cases getKV l k' <;> simp

theorem setKeyAll_idem {α : Type} (l : List (String × α)) (k : String) (v : α) :
    setKeyAll (setKeyAll l k v) k v = setKeyAll l k v := by
  cases hany : l.any (fun p => decide (p.1 = k)) with
  | true =>
    have h1 : setKeyAll l k v = l.map (fun p => if p.1 = k then (k, v) else p) := by
      simp [setKeyAll, hany]
    have hany2 : (l.map (fun p => if p.1 = k then (k, v) else p)).any
        (fun p => decide (p.1 = k)) = true := by
      rw [List.any_eq_true] at hany ⊢
      obtain ⟨p, hp, hbeq⟩ := hany
      have hpk : p.1 = k := by simpa using hbeq
      exact ⟨(k, v), List.mem_map.mpr ⟨p, hp, by simp [hpk]⟩, by simp⟩
    have h2 : setKeyAll (l.map (fun p => if p.1 = k then (k, v) else p)) k v
        = (l.map (fun p => if p.1 = k then (k, v) else p)).map
            (fun p => if p.1 = k then (k, v) else p) := by
      simp [setKeyAll, hany2]
    rw [h1, h2, List.map_map]
    apply List.map_congr_left
    intro p _
    by_cases hp : p.1 = k <;> simp [hp, Function.comp]
  | false =>
    have h1 : setKeyAll l k v = l ++ [(k, v)] := by
      simp [setKeyAll, hany]
    have hany2 : (l ++ [(k, v)]).any (fun p => decide (p.1 = k)) = true := by
      simp [List.any_append]
    have h2 : setKeyAll (l ++ [(k, v)]) k v
        = (l ++ [(k, v)]).map (fun p => if p.1 = k then (k, v) else p) := by
      simp [setKeyAll, hany2]
    rw [h1, h2, List.map_append]
    have h3 : l.map (fun p => if p.1 = k then (k, v) else p) = l := by
      apply map_eq_self_of
      intro p hp
      have hne : ¬(p.1 = k) := by
        intro hc
        have hx : l.any (fun p => decide (p.1 = k)) = true :=
          List.any_eq_true.mpr ⟨p, hp, by simp [hc]⟩
        simp [hx] at hany
      simp [hne]
    rw [h3]
    simp

/-! ## Helper lemmas: element store updates -/

theorem findElem_updateElem (d : Dom) (i : Nat) (f : Elem → Elem) (j : Nat) :
    findElem (updateElem d i f) j
      = if j = i then (findElem d j).map f else findElem d j := by
  unfold findElem updateElem
  rw [getKV_map_upd]
  by_cases h : j = i
  · subst h; simp
  · simp [h]

theorem parent_updateElem (d : Dom) (i : Nat) (f : Elem → Elem) :
    (updateElem d i f).parent = d.parent := rfl

theorem updateElem_comp (d : Dom) (i : Nat) (f g : Elem → Elem) :
    updateElem (updateElem d i f) i g = updateElem d i (fun e => g (f e)) := by
  unfold updateElem
  simp only [List.map_map]
  congr 1
  apply List.map_congr_left
  intro p _
  by_cases hp : p.1 = i <;> simp [hp, Function.comp]

theorem updateElem_comm (d : Dom) (i j : Nat) (f g : Elem → Elem) (hij : i ≠ j) :
    updateElem (updateElem d i f) j g = updateElem (updateElem d j g) i f := by
  unfold updateElem
  simp only [List.map_map]
  congr 1
  apply List.map_congr_left
  intro p _
  by_cases hpi : p.1 = i
  · have hpj : ¬(p.1 = j) := by rw [hpi]; exact hij
    simp [Function.comp, hpi, hpj, hij]
  · by_cases hpj : p.1 = j
    · simp [Function.comp, hpi, hpj, Ne.symm hij]
    · simp [Function.comp, hpi, hpj]

theorem updateElem_congr (d : Dom) (i : Nat) (f g : Elem → Elem)
    (h : ∀ e, f e = g e) : updateElem d i f = updateElem d i g := by
  unfold updateElem
  congr 1
  apply List.map_congr_left
  intro p _
  by_cases hp : p.1 = i <;> simp [hp, h]

theorem updateElem_id (d : Dom) (i : Nat) (f : Elem → Elem) (h : ∀ e, f e = e) :
    updateElem d i f = d := by
  unfold updateElem
  have hmap : d.elems.map (fun p => if p.1 = i then (p.1, f p.2) else p) = d.elems := by
    apply map_eq_self_of
    intro p _
    by_cases hp : p.1 = i <;> simp [hp, h, Prod.ext_iff]
  simp [hmap]

/-! ## Helper lemmas: class lists -/

theorem mem_addClassList (l cs : List String) (a : String) :
    a ∈ addClassList l cs ↔ a ∈ l ∨ a ∈ cs := by
  induction cs generalizing l with
  | nil => simp [addClassList]
  | cons c cs' ih =>
    have step : addClassList l (c :: cs')
        = addClassList (if l.contains c then l else l ++ [c]) cs' := by
      simp [addClassList]
    rw [step, ih]
    by_cases hc : l.contains c = true
    · have hcl : c ∈ l := by simpa [List.elem_iff] using hc
      rw [if_pos hc]
      simp only [List.mem_cons]
      constructor
      · rintro (h | h)
        · exact Or.inl h
        · exact Or.inr (Or.inr h)
      · rintro (h | h | h)
        · exact Or.inl h
        · exact Or.inl (h ▸ hcl)
        · exact Or.inr h
    · rw [if_neg hc]
      simp only [List.mem_append, List.mem_singleton, List.mem_cons]
      tauto

theorem addClassList_absorb (l cs : List String) (h : ∀ c ∈ cs, c ∈ l) :
    addClassList l cs = l := by
  induction cs generalizing l with
  | nil => rfl
  | cons c cs' ih =>
    have hc : l.contains c = true := by
      simpa [List.elem_iff] using h c (by simp)
    have step : addClassList l (c :: cs')
        = addClassList (if l.contains c then l else l ++ [c]) cs' := by
      simp [addClassList]
    rw [step, hc, if_pos rfl]
    exact ih l (fun x hx => h x (by simp [hx]))

theorem contains_addClassList (l cs : List String) (a : String) :
    (addClassList l cs).contains a = (l.contains a || cs.contains a) := by
  by_cases h : a ∈ addClassList l cs
  · rcases (mem_addClassList l cs a).mp h with h' | h'
    · simp [List.elem_iff, h, h']
    · simp [List.elem_iff, h, h']
  · have h2 : ¬(a ∈ l ∨ a ∈ cs) := fun hc => h ((mem_addClassList l cs a).mpr hc)
    push_neg at h2
    simp [List.elem_iff, h, h2.1, h2.2]

/-! ## Helper lemmas: closest -/

theorem closestAux_congr (d d' : Dom) (cls : String)
    (hp : d'.parent = d.parent)
    (hc : ∀ j, (findElem d' j).map (fun e => e.classes.contains cls)
      = (findElem d j).map (fun e => e.classes.contains cls)) :
    ∀ fuel i, closestAux d' cls fuel i = closestAux d cls fuel i := by
  intro fuel
  induction fuel with
  | zero => intro i; rfl
  | succ n ih =>
    intro i
    have hpar : ∀ j, parentOf d' j = parentOf d j := by
      intro j; unfold parentOf; rw [hp]
    simp only [closestAux]
    cases he : findElem d i with
    | none =>
      have he' : findElem d' i = none := by
        have hm := hc i
        rw [he] at hm
        simpa using hm
      simp [he']
    | some e =>
      have hmap := hc i
      rw [he] at hmap
      cases he' : findElem d' i with
      | none => rw [he'] at hmap; simp at hmap
      | some e' =>
        rw [he'] at hmap
        simp only [Option.map_some'] at hmap
        have hcls : e'.classes.contains cls = e.classes.contains cls := by
          simpa using hmap
        simp only [hcls, hpar]
        by_cases hb : e.classes.contains cls = true
        · rw [if_pos hb, if_pos hb]
        · rw [if_neg hb, if_neg hb]
          cases parentOf d i <;> simp [ih]

theorem closest_congr (d d' : Dom) (cls : String)
    (hp : d'.parent = d.parent)
    (hc : ∀ j, (findElem d' j).map (fun e => e.classes.contains cls)
      = (findElem d j).map (fun e => e.classes.contains cls)) (i : Nat) :
    closest d' i cls = closest d i cls := by
  unfold closest
  rw [hp]
  exact closestAux_congr d d' cls hp hc _ i

end PeopleTracker

namespace PeopleTracker

/-! ## Helper lemmas: the write primitives at store level -/

theorem getAttrAt_setAttrOp_self (d : Dom) (i : Nat) (k v : String)
    (hi : (findElem d i).isSome = true) :
    getAttrAt (setAttrOp d i k v) i k = some v := by
  unfold getAttrAt setAttrOp
  rw [findElem_updateElem, if_pos rfl]
  cases he : findElem d i with
  | none => rw [he] at hi; simp at hi
  | some e => simp [getAttr, getKV_setKeyAll_self]

theorem getAttrAt_setAttrOp_ne (d : Dom) (i : Nat) (k v : String) (j : Nat) (k' : String)
    (h : k' ≠ k ∨ j ≠ i) : getAttrAt (setAttrOp d i k v) j k' = getAttrAt d j k' := by
  unfold getAttrAt setAttrOp
  rw [findElem_updateElem]
  by_cases hj : j = i
  · rw [if_pos hj]
    cases he : findElem d j with
    | none => simp
    | some e =>
      rcases h with h | h
      · simp [getAttr, getKV_setKeyAll_ne _ _ _ _ h]
      · exact absurd hj h
  · rw [if_neg hj]

theorem getAttrAt_setStyleOp (d : Dom) (i : Nat) (k v : String) (j : Nat) (k' : String) :
    getAttrAt (setStyleOp d i k v) j k' = getAttrAt d j k' := by
  unfold getAttrAt setStyleOp
  rw [findElem_updateElem]
  by_cases hj : j = i
  · rw [if_pos hj]
    cases findElem d j <;> simp [getAttr]
  · rw [if_neg hj]

theorem getAttrAt_addClassesOp (d : Dom) (i : Nat) (cs : List String) (j : Nat)
    (k' : String) : getAttrAt (addClassesOp d i cs) j k' = getAttrAt d j k' := by
  unfold getAttrAt addClassesOp
  rw [findElem_updateElem]
  by_cases hj : j = i
  · rw [if_pos hj]
    cases findElem d j <;> simp [getAttr]
  · rw [if_neg hj]

theorem getStyleAt_setAttrOp (d : Dom) (i : Nat) (k v : String) (j : Nat) (k' : String) :
    getStyleAt (setAttrOp d i k v) j k' = getStyleAt d j k' := by
  unfold getStyleAt setAttrOp
  rw [findElem_updateElem]
  by_cases hj : j = i
  · rw [if_pos hj]
    cases findElem d j <;> simp [getStyle]
  · rw [if_neg hj]

theorem getStyleAt_setStyleOp_self (d : Dom) (i : Nat) (k v : String)
    (hi : (findElem d i).isSome = true) :
    getStyleAt (setStyleOp d i k v) i k = some v := by
  unfold getStyleAt setStyleOp
  rw [findElem_updateElem, if_pos rfl]
  cases he : findElem d i with
  | none => rw [he] at hi; simp at hi
  | some e => simp [getStyle, getKV_setKeyAll_self]

theorem getStyleAt_setStyleOp_ne (d : Dom) (i : Nat) (k v : String) (j : Nat) (k' : String)
    (h : k' ≠ k ∨ j ≠ i) : getStyleAt (setStyleOp d i k v) j k' = getStyleAt d j k' := by
  unfold getStyleAt setStyleOp
  rw [findElem_updateElem]
  by_cases hj : j = i
  · rw [if_pos hj]
    cases he : findElem d j with
    | none => simp
    | some e =>
      rcases h with h | h
      · simp [getStyle, getKV_setKeyAll_ne _ _ _ _ h]
      · exact absurd hj h
  · rw [if_neg hj]

theorem getStyleAt_addClassesOp (d : Dom) (i : Nat) (cs : List String) (j : Nat)
    (k' : String) : getStyleAt (addClassesOp d i cs) j k' = getStyleAt d j k' := by
  unfold getStyleAt addClassesOp
  rw [findElem_updateElem]
  by_cases hj : j = i
  · rw [if_pos hj]
    cases findElem d j <;> simp [getStyle]
  · rw [if_neg hj]

theorem hasClassAt_setAttrOp (d : Dom) (i : Nat) (k v : String) (j : Nat) (c : String) :
    hasClassAt (setAttrOp d i k v) j c = hasClassAt d j c := by
  unfold hasClassAt setAttrOp
  rw [findElem_updateElem]
  by_cases hj : j = i
  · rw [if_pos hj]
    cases findElem d j <;> simp
  · rw [if_neg hj]

theorem hasClassAt_setStyleOp (d : Dom) (i : Nat) (k v : String) (j : Nat) (c : String) :
    hasClassAt (setStyleOp d i k v) j c = hasClassAt d j c := by
  unfold hasClassAt setStyleOp
  rw [findElem_updateElem]
  by_cases hj : j = i
  · rw [if_pos hj]
    cases findElem d j <;> simp
  · rw [if_neg hj]

theorem hasClassAt_addClassesOp_self (d : Dom) (i : Nat) (cs : List String) (c : String) :
    hasClassAt (addClassesOp d i cs) i c
      = (hasClassAt d i c || ((findElem d i).isSome && cs.contains c)) := by
  unfold hasClassAt addClassesOp
  rw [findElem_updateElem, if_pos rfl]
  cases findElem d i with
  | none => simp
  | some e =>
    simp only [Option.map_some']
    rw [contains_addClassList]
    simp

theorem hasClassAt_addClassesOp_ne (d : Dom) (i : Nat) (cs : List String) (j : Nat)
    (c : String) (h : j ≠ i) : hasClassAt (addClassesOp d i cs) j c = hasClassAt d j c := by
  unfold hasClassAt addClassesOp
  rw [findElem_updateElem, if_neg h]

theorem closest_updateElem (d : Dom) (i : Nat) (f : Elem → Elem) (cls : String)
    (hf : ∀ e, (f e).classes.contains cls = e.classes.contains cls) (j : Nat) :
    closest (updateElem d i f) j cls = closest d j cls := by
  apply closest_congr
  · rfl
  · intro j'
    rw [findElem_updateElem]
    by_cases hj : j' = i
    · rw [if_pos hj]
      cases findElem d j' with
      | none => rfl
      | some e =>
        simp only [Option.map_some']
        rw [hf]
    · rw [if_neg hj]

theorem findElem_isSome_updateElem (d : Dom) (i : Nat) (f : Elem → Elem) (j : Nat) :
    (findElem (updateElem d i f) j).isSome = (findElem d j).isSome := by
  rw [findElem_updateElem]
  by_cases hj : j = i
  · rw [if_pos hj]; cases findElem d j <;> simp
  · rw [if_neg hj]

/-! ## Helper lemmas: the decorator -/

theorem processPersonLink_eq (h : Host) (s : PeopleTrackerSettings) (d : Dom) (i : Nat)
    (c : FileCache) :
    processPersonLink h s d i c
      = if decorCond h s c = true then applyWrites h s d i (avatarNameOf c)
        else (d, 0) := by
  obtain ⟨fmOpt⟩ := c
  cases fmOpt with
  | none => simp [processPersonLink, decorCond]
  | some fm =>
    obtain ⟨av⟩ := fm
    cases av with
    | none => simp [processPersonLink, decorCond]
    | some a =>
      by_cases ha : a = ""
      · simp [processPersonLink, decorCond, avatarNameOf, ha]
      · by_cases hf : s.avatarFolderPath = ""
        · simp [processPersonLink, decorCond, avatarNameOf, ha, hf]
        · by_cases he : h.adapterExists (s.avatarFolderPath ++ "/" ++ a) = false
          · simp [processPersonLink, decorCond, avatarNameOf, ha, hf, he]
          · have he' : h.adapterExists (s.avatarFolderPath ++ "/" ++ a) = true := by
              simpa using he
            simp [processPersonLink, decorCond, avatarNameOf, ha, hf, he']

end PeopleTracker

namespace PeopleTracker

/-! ## Helper lemmas: writeChain and applyWrites -/

theorem elemsFst_updateElem (d : Dom) (i : Nat) (f : Elem → Elem) :
    (updateElem d i f).elems.map Prod.fst = d.elems.map Prod.fst := by
  unfold updateElem
  simp only [List.map_map]
  apply List.map_congr_left
  intro p _
  by_cases hp : p.1 = i <;> simp [hp, Function.comp]

theorem writeChain_eq_update (d : Dom) (t : Nat) (u : String) :
    writeChain d t u = updateElem d t (writeF u) := by
  unfold writeChain setAttrOp setStyleOp addClassesOp
  rw [updateElem_comp, updateElem_comp]
  apply updateElem_congr
  intro e
  rfl

theorem writeF_idem (u : String) (e : Elem) : writeF u (writeF u e) = writeF u e := by
  unfold writeF
  simp only [Elem.mk.injEq]
  exact ⟨addClassList_absorb _ _ (fun c hc => (mem_addClassList _ _ c).mpr (Or.inr hc)),
    setKeyAll_idem _ _ _, setKeyAll_idem _ _ _, trivial⟩

theorem contains_writeF (u : String) (e : Elem) (cls : String)
    (hcls : classWrites.contains cls = false) :
    (writeF u e).classes.contains cls = e.classes.contains cls := by
  unfold writeF
  simp only
  rw [contains_addClassList, hcls, Bool.or_false]

theorem closest_writeChain (d : Dom) (t : Nat) (u : String) (cls : String)
    (hcls : classWrites.contains cls = false) (j : Nat) :
    closest (writeChain d t u) j cls = closest d j cls := by
  rw [writeChain_eq_update]
  exact closest_updateElem _ _ _ _ (fun e => contains_writeF u e cls hcls) j

theorem closest_addClassesOp (d : Dom) (i : Nat) (cs : List String) (cls : String)
    (hcls : cs.contains cls = false) (j : Nat) :
    closest (addClassesOp d i cs) j cls = closest d j cls := by
  unfold addClassesOp
  apply closest_updateElem
  intro e
  simp only
  rw [contains_addClassList, hcls, Bool.or_false]

theorem writeChain_idem (d : Dom) (t : Nat) (u : String) :
    writeChain (writeChain d t u) t u = writeChain d t u := by
  rw [writeChain_eq_update, writeChain_eq_update, updateElem_comp]
  apply updateElem_congr
  intro e
  exact writeF_idem u e

theorem addClassesOp_idem (d : Dom) (i : Nat) (cs : List String) :
    addClassesOp (addClassesOp d i cs) i cs = addClassesOp d i cs := by
  unfold addClassesOp
  rw [updateElem_comp]
  apply updateElem_congr
  intro e
  have habs : addClassList (addClassList e.classes cs) cs = addClassList e.classes cs :=
    addClassList_absorb _ _ (fun c hc => (mem_addClassList _ _ c).mpr (Or.inr hc))
  simp [habs]

theorem writeChain_addClassesOp_comm (d : Dom) (t i : Nat) (u : String) (cs : List String)
    (hti : t ≠ i) :
    writeChain (addClassesOp d i cs) t u = addClassesOp (writeChain d t u) i cs := by
  rw [writeChain_eq_update, writeChain_eq_update]
  unfold addClassesOp
  exact updateElem_comm d i t _ _ (fun hc => hti hc.symm)

theorem getAttrAt_writeChain_self (d : Dom) (t : Nat) (u : String)
    (hi : (findElem d t).isSome = true) :
    getAttrAt (writeChain d t u) t "data-link-avatar" = some u := by
  rw [writeChain_eq_update]
  unfold getAttrAt
  rw [findElem_updateElem, if_pos rfl]
  cases he : findElem d t with
  | none => rw [he] at hi; simp at hi
  | some e => simp [getAttr, writeF, getKV_setKeyAll_self]

theorem getStyleAt_writeChain_self (d : Dom) (t : Nat) (u : String)
    (hi : (findElem d t).isSome = true) :
    getStyleAt (writeChain d t u) t "--data-link-avatar" = some ("url(" ++ u ++ ")") := by
  rw [writeChain_eq_update]
  unfold getStyleAt
  rw [findElem_updateElem, if_pos rfl]
  cases he : findElem d t with
  | none => rw [he] at hi; simp at hi
  | some e => simp [getStyle, writeF, getKV_setKeyAll_self]

theorem hasClassAt_writeChain_self (d : Dom) (t : Nat) (u : String) (c : String)
    (hi : (findElem d t).isSome = true) :
    hasClassAt (writeChain d t u) t c = (hasClassAt d t c || classWrites.contains c) := by
  rw [writeChain_eq_update]
  unfold hasClassAt
  rw [findElem_updateElem, if_pos rfl]
  cases he : findElem d t with
  | none => rw [he] at hi; simp at hi
  | some e =>
    simp only [Option.map_some']
    unfold writeF
    simp only
    rw [contains_addClassList]

theorem hasClassAt_writeChain_ne (d : Dom) (t : Nat) (u : String) (j : Nat) (c : String)
    (h : j ≠ t) : hasClassAt (writeChain d t u) j c = hasClassAt d j c := by
  rw [writeChain_eq_update]
  unfold hasClassAt
  rw [findElem_updateElem, if_neg h]

theorem findElem_isSome_writeChain (d : Dom) (t : Nat) (u : String) (j : Nat) :
    (findElem (writeChain d t u) j).isSome = (findElem d j).isSome := by
  rw [writeChain_eq_update]
  exact findElem_isSome_updateElem d t _ j

theorem getAttrAt_writeChain_otherKey (d : Dom) (t : Nat) (u : String) (j : Nat)
    (k' : String) (h : k' ≠ "data-link-avatar") :
    getAttrAt (writeChain d t u) j k' = getAttrAt d j k' := by
  rw [writeChain_eq_update]
  unfold getAttrAt
  rw [findElem_updateElem]
  by_cases hj : j = t
  · rw [if_pos hj]
    cases findElem d j with
    | none => simp
    | some e => simp [getAttr, writeF, getKV_setKeyAll_ne _ _ _ _ h]
  · rw [if_neg hj]

theorem closestAux_some (d : Dom) (cls : String) :
    ∀ fuel i j, closestAux d cls fuel i = some j →
      ∃ e, findElem d j = some e ∧ e.classes.contains cls = true := by
  intro fuel
  induction fuel with
  | zero => intro i j hj; simp [closestAux] at hj
  | succ n ih =>
    intro i j hj
    cases he : findElem d i with
    | none => simp [closestAux, he] at hj
    | some e =>
      simp only [closestAux, he] at hj
      by_cases hb : e.classes.contains cls = true
      · rw [if_pos hb] at hj
        have hij : i = j := by simpa using hj
        subst hij
        exact ⟨e, he, hb⟩
      · rw [if_neg hb] at hj
        cases hp : parentOf d i with
        | none => rw [hp] at hj; simp at hj
        | some p => rw [hp] at hj; exact ih p j hj

theorem closest_some (d : Dom) (i : Nat) (cls : String) (j : Nat)
    (h : closest d i cls = some j) :
    ∃ e, findElem d j = some e ∧ e.classes.contains cls = true :=
  closestAux_some d cls _ i j h

theorem applyWrites_facts (h : Host) (s : PeopleTrackerSettings) (d : Dom) (i : Nat)
    (a : String) (hi : (findElem d i).isSome = true) :
    (getAttrAt (applyWrites h s d i a).1 (closestTarget d i) "data-link-avatar"
        = some (h.getResourcePath (s.avatarFolderPath ++ "/" ++ a))
      ∧ getStyleAt (applyWrites h s d i a).1 (closestTarget d i) "--data-link-avatar"
        = some ("url(" ++ h.getResourcePath (s.avatarFolderPath ++ "/" ++ a) ++ ")")
      ∧ hasClassAt (applyWrites h s d i a).1 (closestTarget d i) "data-link-icon" = true
      ∧ hasClassAt (applyWrites h s d i a).1 (closestTarget d i) "person-link" = true
      ∧ hasClassAt (applyWrites h s d i a).1 (closestTarget d i) "person-link-processed"
        = true)
    ∧ (closestTarget d i ≠ i →
        hasClassAt (applyWrites h s d i a).1 i "data-link-icon" = true
          ∧ hasClassAt (applyWrites h s d i a).1 i "person-link" = true
          ∧ hasClassAt (applyWrites h s d i a).1 i "person-link-processed"
            = hasClassAt d i "person-link-processed") := by
  unfold applyWrites closestTarget
  cases hpe : closest d i "cm-hmd-internal-link" with
  | none =>
    simp only [Option.getD_none]
    constructor
    · refine ⟨getAttrAt_writeChain_self d i _ hi, getStyleAt_writeChain_self d i _ hi,
        ?_, ?_, ?_⟩ <;>
      · rw [hasClassAt_writeChain_self d i _ _ hi]
        simp [classWrites]
    · intro hne
      exact absurd rfl hne
  | some p =>
    obtain ⟨ep, hep, _⟩ := closest_some d i "cm-hmd-internal-link" p hpe
    have hps : (findElem d p).isSome = true := by rw [hep]; rfl
    simp only [Option.getD_some]
    by_cases hpi : p ≠ i
    · rw [if_pos hpi]
      constructor
      · refine ⟨?_, ?_, ?_, ?_, ?_⟩
        · rw [getAttrAt_addClassesOp]
          exact getAttrAt_writeChain_self d p _ hps
        · rw [getStyleAt_addClassesOp]
          exact getStyleAt_writeChain_self d p _ hps
        · rw [hasClassAt_addClassesOp_ne _ _ _ _ _ hpi,
            hasClassAt_writeChain_self d p _ _ hps]
          simp [classWrites]
        · rw [hasClassAt_addClassesOp_ne _ _ _ _ _ hpi,
            hasClassAt_writeChain_self d p _ _ hps]
          simp [classWrites]
        · rw [hasClassAt_addClassesOp_ne _ _ _ _ _ hpi,
            hasClassAt_writeChain_self d p _ _ hps]
          simp [classWrites]
      · intro _
        have hwi : (findElem (writeChain d p
            (h.getResourcePath (s.avatarFolderPath ++ "/" ++ a))) i).isSome = true := by
          rw [findElem_isSome_writeChain]; exact hi
        refine ⟨?_, ?_, ?_⟩
        · rw [hasClassAt_addClassesOp_self, hwi]
          simp
        · rw [hasClassAt_addClassesOp_self, hwi]
          simp
        · rw [hasClassAt_addClassesOp_self, hwi]
          have hip : i ≠ p := fun hc => hpi hc.symm
          rw [hasClassAt_writeChain_ne d p _ i _ hip]
          simp
    · have hpi' : p = i := by simpa using hpi
      subst hpi'
      rw [if_neg (by simp)]
      constructor
      · refine ⟨getAttrAt_writeChain_self d p _ hps, getStyleAt_writeChain_self d p _ hps,
          ?_, ?_, ?_⟩ <;>
        · rw [hasClassAt_writeChain_self d p _ _ hps]
          simp [classWrites]
      · intro hne
        exact absurd rfl hne

theorem applyWrites_idem (h : Host) (s : PeopleTrackerSettings) (d : Dom) (i : Nat)
    (a : String) :
    (applyWrites h s (applyWrites h s d i a).1 i a).1 = (applyWrites h s d i a).1 := by
  unfold applyWrites
  have hcw : classWrites.contains "cm-hmd-internal-link" = false := by decide
  have hcs2 : (["data-link-icon", "person-link"] : List String).contains
      "cm-hmd-internal-link" = false := by decide
  cases hpe : closest d i "cm-hmd-internal-link" with
  | none =>
    simp only
    have hinv : closest (writeChain d i (h.getResourcePath (s.avatarFolderPath ++ "/" ++ a)))
        i "cm-hmd-internal-link" = none := by
      rw [closest_writeChain _ _ _ _ hcw, hpe]
    rw [hinv]
    simp only
    exact writeChain_idem d i _
  | some p =>
    simp only
    by_cases hpi : p ≠ i
    · rw [if_pos hpi]
      simp only
      have hinv : closest (addClassesOp
          (writeChain d p (h.getResourcePath (s.avatarFolderPath ++ "/" ++ a))) i
          ["data-link-icon", "person-link"]) i "cm-hmd-internal-link" = some p := by
        rw [closest_addClassesOp _ _ _ _ hcs2, closest_writeChain _ _ _ _ hcw, hpe]
      rw [hinv]
      simp only
      rw [if_pos hpi]
      simp only
      rw [writeChain_addClassesOp_comm _ _ _ _ _ hpi, writeChain_idem,
        addClassesOp_idem]
    · have hpi' : p = i := by simpa using hpi
      subst hpi'
      rw [if_neg (by simp)]
      simp only
      have hinv : closest (writeChain d p (h.getResourcePath (s.avatarFolderPath ++ "/" ++ a)))
          p "cm-hmd-internal-link" = some p := by
        rw [closest_writeChain _ _ _ _ hcw, hpe]
      rw [hinv]
      simp only
      rw [if_neg (by simp)]
      exact writeChain_idem d p _

end PeopleTracker

namespace PeopleTracker

/-! ## Helper lemmas: the frame relation -/

theorem FrameLe_refl (d : Dom) : FrameLe d d := by
  refine ⟨rfl, rfl, fun i e he => ⟨e, he, rfl, fun _ _ => rfl, fun _ _ => rfl,
    fun hx => hx, fun hx => hx, fun _ hc => hc, fun c hc => Or.inl hc⟩⟩

theorem FrameLe_trans (d1 d2 d3 : Dom) (h12 : FrameLe d1 d2) (h23 : FrameLe d2 d3) :
    FrameLe d1 d3 := by
  obtain ⟨hp12, hf12, he12⟩ := h12
  obtain ⟨hp23, hf23, he23⟩ := h23
  refine ⟨hp23.trans hp12, hf23.trans hf12, fun i e he => ?_⟩
  obtain ⟨e2, he2, ht2, ha2, hs2, hia2, his2, hc2, hc2'⟩ := he12 i e he
  obtain ⟨e3, he3, ht3, ha3, hs3, hia3, his3, hc3, hc3'⟩ := he23 i e2 he2
  refine ⟨e3, he3, ht3.trans ht2, ?_, ?_, ?_, ?_, ?_, ?_⟩
  · intro k hk
    rw [ha3 k hk, ha2 k hk]
  · intro k hk
    rw [hs3 k hk, hs2 k hk]
  · intro hx
    exact hia3 (hia2 hx)
  · intro hx
    exact his3 (his2 hx)
  · intro c hc
    exact hc3 c (hc2 c hc)
  · intro c hc
    rcases hc3' c hc with hc' | hc'
    · rcases hc2' c hc' with hc'' | hc''
      · exact Or.inl hc''
      · exact Or.inr hc''
    · exact Or.inr hc'

theorem FrameLe_updateElem (d : Dom) (i : Nat) (f : Elem → Elem)
    (h1 : ∀ e, (f e).text = e.text)
    (h2 : ∀ e k, k ≠ "data-link-avatar" → getAttr (f e) k = getAttr e k)
    (h3 : ∀ e k, k ≠ "--data-link-avatar" → getStyle (f e) k = getStyle e k)
    (h4 : ∀ e, (getAttr e "data-link-avatar").isSome = true →
      (getAttr (f e) "data-link-avatar").isSome = true)
    (h5 : ∀ e, (getStyle e "--data-link-avatar").isSome = true →
      (getStyle (f e) "--data-link-avatar").isSome = true)
    (h6 : ∀ e c, c ∈ e.classes → c ∈ (f e).classes)
    (h7 : ∀ e c, c ∈ (f e).classes → c ∈ e.classes ∨ c ∈ classWrites) :
    FrameLe d (updateElem d i f) := by
  refine ⟨parent_updateElem d i f, elemsFst_updateElem d i f, fun j e he => ?_⟩
  rw [findElem_updateElem]
  by_cases hj : j = i
  · rw [if_pos hj, he]
    exact ⟨f e, rfl, h1 e, h2 e, h3 e, h4 e, h5 e, h6 e, h7 e⟩
  · rw [if_neg hj]
    exact ⟨e, he, rfl, fun _ _ => rfl, fun _ _ => rfl, fun hx => hx, fun hx => hx,
      fun _ hc => hc, fun c hc => Or.inl hc⟩

theorem FrameLe_setAttrOp (d : Dom) (i : Nat) (v : String) :
    FrameLe d (setAttrOp d i "data-link-avatar" v) := by
  unfold setAttrOp
  apply FrameLe_updateElem
  · intro e; rfl
  · intro e k hk
    exact getKV_setKeyAll_ne _ _ _ _ hk
  · intro e k _; rfl
  · intro e _
    rw [show getAttr { e with attrs := setKeyAll e.attrs "data-link-avatar" v }
        "data-link-avatar" = getKV (setKeyAll e.attrs "data-link-avatar" v)
        "data-link-avatar" from rfl]
    rw [getKV_setKeyAll_self]
    rfl
  · intro e hx; exact hx
  · intro e c hc; exact hc
  · intro e c hc; exact Or.inl hc

theorem FrameLe_setStyleOp (d : Dom) (i : Nat) (v : String) :
    FrameLe d (setStyleOp d i "--data-link-avatar" v) := by
  unfold setStyleOp
  apply FrameLe_updateElem
  · intro e; rfl
  · intro e k _; rfl
  · intro e k hk
    exact getKV_setKeyAll_ne _ _ _ _ hk
  · intro e hx; exact hx
  · intro e _
    rw [show getStyle { e with styleProps := setKeyAll e.styleProps "--data-link-avatar" v }
        "--data-link-avatar" = getKV (setKeyAll e.styleProps "--data-link-avatar" v)
        "--data-link-avatar" from rfl]
    rw [getKV_setKeyAll_self]
    rfl
  · intro e c hc; exact hc
  · intro e c hc; exact Or.inl hc

theorem FrameLe_addClassesOp (d : Dom) (i : Nat) (cs : List String)
    (hcs : ∀ c ∈ cs, c ∈ classWrites) :
    FrameLe d (addClassesOp d i cs) := by
  unfold addClassesOp
  apply FrameLe_updateElem
  · intro e; rfl
  · intro e k _; rfl
  · intro e k _; rfl
  · intro e hx; exact hx
  · intro e hx; exact hx
  · intro e c hc
    exact (mem_addClassList _ _ c).mpr (Or.inl hc)
  · intro e c hc
    rcases (mem_addClassList _ _ c).mp hc with hc' | hc'
    · exact Or.inl hc'
    · exact Or.inr (hcs c hc')

theorem FrameLe_writeChain (d : Dom) (t : Nat) (u : String) :
    FrameLe d (writeChain d t u) := by
  unfold writeChain
  apply FrameLe_trans _ _ _ (FrameLe_setAttrOp d t u)
  apply FrameLe_trans _ _ _ (FrameLe_setStyleOp _ t _)
  exact FrameLe_addClassesOp _ t classWrites (fun c hc => hc)

theorem FrameLe_applyWrites (h : Host) (s : PeopleTrackerSettings) (d : Dom) (i : Nat)
    (a : String) : FrameLe d (applyWrites h s d i a).1 := by
  unfold applyWrites
  cases closest d i "cm-hmd-internal-link" with
  | none =>
    simp only
    exact FrameLe_writeChain d i _
  | some p =>
    simp only
    by_cases hpi : p ≠ i
    · rw [if_pos hpi]
      simp only
      apply FrameLe_trans _ _ _ (FrameLe_writeChain d p _)
      apply FrameLe_addClassesOp
      intro c hc
      have hc' : c = "data-link-icon" ∨ c = "person-link" := by simpa using hc
      rcases hc' with rfl | rfl <;> simp [classWrites]
    · rw [if_neg hpi]
      exact FrameLe_writeChain d p _

end PeopleTracker

namespace PeopleTracker

/-! ## Helper lemmas: driver invariant -/

theorem DriverInv_init : DriverInv initDriver := by
  refine ⟨?_, ?_, ?_⟩ <;> simp [initDriver, DriverInv]

theorem clearTracked_inv (st : Driver) (h : DriverInv st) :
    DriverInv (clearTrackedTimer st) := by
  obtain ⟨h1, h2, h3⟩ := h
  cases htr : st.tracked with
  | none =>
    have hcl : clearTrackedTimer st = st := by unfold clearTrackedTimer; rw [htr]
    rw [hcl]
    exact ⟨h1, h2, h3⟩
  | some k =>
    have hcl : clearTrackedTimer st
        = { st with pending := st.pending.filter (fun tm => decide (tm.tid ≠ k)) } := by
      unfold clearTrackedTimer; rw [htr]
    rw [hcl]
    refine ⟨?_, ?_, ?_⟩
    · intro t ht
      exact h1 t (List.mem_of_mem_filter ht)
    · exact List.Nodup.sublist (List.Sublist.map _ (List.filter_sublist _)) h2
    · intro t ht hact
      exact h3 t (List.mem_of_mem_filter ht) hact

theorem clearTracked_noScan (st : Driver) (h : DriverInv st) :
    ∀ t ∈ (clearTrackedTimer st).pending, t.act ≠ TAct.actScan := by
  intro t ht hact
  cases htr : st.tracked with
  | none =>
    have hcl : clearTrackedTimer st = st := by unfold clearTrackedTimer; rw [htr]
    rw [hcl] at ht
    have h3 := h.2.2 t ht hact
    rw [htr] at h3
    exact Option.noConfusion h3
  | some k =>
    have hcl : clearTrackedTimer st
        = { st with pending := st.pending.filter (fun tm => decide (tm.tid ≠ k)) } := by
      unfold clearTrackedTimer; rw [htr]
    rw [hcl] at ht
    have hmem := List.mem_of_mem_filter ht
    have hne : t.tid ≠ k := by simpa using List.of_mem_filter ht
    have h3 := h.2.2 t hmem hact
    rw [htr] at h3
    exact hne (Option.some.inj h3).symm

theorem processCurrentView_eq (now : Nat) (st : Driver) :
    processCurrentView now st
      = { nextId := (clearTrackedTimer st).nextId + 1
          tracked := some (clearTrackedTimer st).nextId
          pending := (clearTrackedTimer st).pending
            ++ [⟨(clearTrackedTimer st).nextId, now + 100, TAct.actScan⟩]
          scansRun := (clearTrackedTimer st).scansRun + 1 } := rfl

theorem processCurrentView_inv (now : Nat) (st : Driver) (h : DriverInv st) :
    DriverInv (processCurrentView now st) := by
  have hinv := clearTracked_inv st h
  have hnos := clearTracked_noScan st h
  obtain ⟨h1, h2, h3⟩ := hinv
  rw [processCurrentView_eq]
  refine ⟨?_, ?_, ?_⟩
  · intro t ht
    rcases List.mem_append.mp ht with ht' | ht'
    · exact Nat.lt_succ_of_lt (h1 t ht')
    · have heq : t = ⟨(clearTrackedTimer st).nextId, now + 100, TAct.actScan⟩ := by
        simpa using ht'
    

      rw [heq]
      exact Nat.lt_succ_self _
  · rw [List.map_append]
    refine List.nodup_append.mpr ⟨h2, by simp, ?_⟩
    intro a ha hb
    obtain ⟨t, ht, htid⟩ := List.mem_map.mp ha
    have hlt := h1 t ht
    have hb' : a = (clearTrackedTimer st).nextId := by simpa using hb
    rw [htid, hb'] at hlt
    exact Nat.lt_irrefl _ hlt
  · intro t ht hact
    rcases List.mem_append.mp ht with ht' | ht'
    · exact absurd hact (hnos t ht')
    · have heq : t = ⟨(clearTrackedTimer st).nextId, now + 100, TAct.actScan⟩ := by
        simpa using ht'
      rw [heq]

theorem handleEditorChange_eq (now : Nat) (st : Driver) :
    handleEditorChange now st
      = { processCurrentView now st with
          pending := (processCurrentView now st).pending
            ++ [⟨(processCurrentView now st).nextId, now + 100, TAct.actPCV⟩]
          nextId := (processCurrentView now st).nextId + 1 } := rfl

theorem handleEditorChange_inv (now : Nat) (st : Driver) (h : DriverInv st) :
    DriverInv (handleEditorChange now st) := by
  have hinv := processCurrentView_inv now st h
  obtain ⟨h1, h2, h3⟩ := hinv
  rw [handleEditorChange_eq]
  refine ⟨?_, ?_, ?_⟩
  · intro t ht
    rcases List.mem_append.mp ht with ht' | ht'
    · exact Nat.lt_succ_of_lt (h1 t ht')
    · have heq : t = ⟨(processCurrentView now st).nextId, now + 100, TAct.actPCV⟩ := by
        simpa using ht'
      rw [heq]
      exact Nat.lt_succ_self _
  · rw [List.map_append]
    refine List.nodup_append.mpr ⟨h2, by simp, ?_⟩
    intro a ha hb
    obtain ⟨t, ht, htid⟩ := List.mem_map.mp ha
    have hlt := h1 t ht
    have hb' : a = (processCurrentView now st).nextId := by simpa using hb
    rw [htid, hb'] at hlt
    exact Nat.lt_irrefl _ hlt
  · intro t ht hact
    rcases List.mem_append.mp ht with ht' | ht'
    · exact h3 t ht' hact
    · have heq : t = ⟨(processCurrentView now st).nextId, now + 100, TAct.actPCV⟩ := by
        simpa using ht'
      rw [heq] at hact
      simp at hact

theorem fireTimer_inv (t : PTimer) (st : Driver) (h : DriverInv st) :
    DriverInv (fireTimer t st) := by
  have hfil : DriverInv { st with
      pending := st.pending.filter (fun tm => decide (tm.tid ≠ t.tid)) } := by
    obtain ⟨h1, h2, h3⟩ := h
    refine ⟨?_, ?_, ?_⟩
    · intro t' ht'
      exact h1 t' (List.mem_of_mem_filter ht')
    · exact List.Nodup.sublist (List.Sublist.map _ (List.filter_sublist _)) h2
    · intro t' ht' hact
      exact h3 t' (List.mem_of_mem_filter ht') hact
  unfold fireTimer
  cases t.act with
  | actScan => exact hfil
  | actPCV => exact processCurrentView_inv _ _ hfil

theorem runDriver_inv : ∀ (fuel : Nat) (evs : List Nat) (st : Driver),
    DriverInv st → DriverInv (runDriver fuel evs st) := by
  intro fuel
  induction fuel with
  | zero => intro evs st h; exact h
  | succ n ih =>
    intro evs st h
    cases evs with
    | nil =>
      cases he : earliestTimer st.pending with
      | none => simpa [runDriver, he] using h
      | some t =>
        have hr : runDriver (n + 1) [] st = runDriver n [] (fireTimer t st) := by
          simp [runDriver, he]
        rw [hr]
        exact ih _ _ (fireTimer_inv t st h)
    | cons e rest =>
      cases he : earliestTimer st.pending with
      | none =>
        have hr : runDriver (n + 1) (e :: rest) st
            = runDriver n rest (handleEditorChange e st) := by
          simp [runDriver, he]
        rw [hr]
        exact ih _ _ (handleEditorChange_inv e st h)
      | some t =>
        by_cases hle : e ≤ t.fireAt
        · have hr : runDriver (n + 1) (e :: rest) st
              = runDriver n rest (handleEditorChange e st) := by
            simp [runDriver, he, hle]
          rw [hr]
          exact ih _ _ (handleEditorChange_inv e st h)
        · have hr : runDriver (n + 1) (e :: rest) st
              = runDriver n (e :: rest) (fireTimer t st) := by
            simp [runDriver, he, hle]
          rw [hr]
          exact ih _ _ (fireTimer_inv t st h)

theorem filter_scan_le_one (l : List PTimer) (k : Nat)
    (hnd : (l.map (fun t => t.tid)).Nodup)
    (hall : ∀ t ∈ l, t.act = TAct.actScan → t.tid = k) :
    (l.filter (fun t => decide (t.act = TAct.actScan))).length ≤ 1 := by
  induction l with
  | nil => simp
  | cons t l' ih =>
    have hnd' : (l'.map (fun t => t.tid)).Nodup := hnd.of_cons
    by_cases ha : t.act = TAct.actScan
    · have hfil : l'.filter (fun t => decide (t.act = TAct.actScan)) = [] := by
        rw [List.filter_eq_nil_iff]
        intro t' ht'
        simp only [decide_eq_true_eq]
        intro hact'
        have hk1 := hall t' (by simp [ht']) hact'
        have hk2 := hall t (by simp) ha
        have hnotin : t.tid ∉ l'.map (fun t => t.tid) := (List.nodup_cons.mp hnd).1
        apply hnotin
        rw [hk2, ← hk1]
        exact List.mem_map.mpr ⟨t', ht', rfl⟩
      simp [ha, hfil]
    · have hdf : (decide (t.act = TAct.actScan)) = false := by simp [ha]
      simp only [List.filter_cons, hdf, Bool.false_eq_true, if_false]
      exact ih hnd' (fun t' ht' h' => hall t' (by simp [ht']) h')

theorem driverInv_count (st : Driver) (h : DriverInv st) : scanTimerCount st ≤ 1 := by
  obtain ⟨h1, h2, h3⟩ := h
  unfold scanTimerCount
  cases htr : st.tracked with
  | none =>
    have hfil : st.pending.filter (fun t => decide (t.act = TAct.actScan)) = [] := by
      rw [List.filter_eq_nil_iff]
      intro t ht
      simp only [decide_eq_true_eq]
      intro hact
      have h3' := h3 t ht hact
      rw [htr] at h3'
      exact Option.noConfusion h3'
    simp [hfil]
  | some k =>
    apply filter_scan_le_one st.pending k h2
    intro t ht hact
    have h3' := h3 t ht hact
    rw [htr] at h3'
    exact (Option.some.inj h3').symm

/-! ## Helper lemmas: Object.assign -/

theorem getKV_eq_none_of_not_mem_keys {κ α : Type} [DecidableEq κ] (l : List (κ × α))
    (k : κ) (h : k ∉ l.map Prod.fst) : getKV l k = none := by
  induction l with
  | nil => rfl
  | cons p rest ih =>
    simp only [List.map_cons, List.mem_cons] at h
    push_neg at h
    rw [getKV_cons, if_neg (fun hc => h.1 hc.symm)]
    exact ih h.2

theorem getKV_objectAssign (t s : Obj) (k : String) (hnd : (s.map Prod.fst).Nodup) :
    getKV (objectAssign t s) k
      = match getKV s k with
        | some v => some v
        | none => getKV t k := by
  induction s generalizing t with
  | nil => simp [objectAssign, getKV]
  | cons kv s' ih =>
    obtain ⟨k0, v0⟩ := kv
    have hnd' : (s'.map Prod.fst).Nodup := hnd.of_cons
    have hstep : objectAssign t ((k0, v0) :: s') = objectAssign (setKeyAll t k0 v0) s' := rfl
    rw [hstep, ih _ hnd']
    by_cases hk : k = k0
    · subst hk
      have hk0 : k ∉ s'.map Prod.fst := (List.nodup_cons.mp hnd).1
      rw [getKV_eq_none_of_not_mem_keys s' k hk0]
      simp [getKV_cons, getKV_setKeyAll_self]
    · rw [getKV_cons, if_neg (fun hc => hk hc.symm)]
      cases hg : getKV s' k with
      | some v => simp
      | none => simp [getKV_setKeyAll_ne _ _ _ _ hk]

end PeopleTracker

namespace PeopleTracker

/-! ## Claim theorems -/

/-- C5: the resolver of `main.ts` tries candidates in the claimed fixed
order — editor-underline text first, then the `data-href` and `href`
attributes, then plain text content when the role is not editor-underline —
returning the target of the first candidate the host maps to a note; a host
error for one candidate counts as no match for it, and the resolver (a
total function) never throws.  Stated as equality with `resolverSpec`, the
first-success resolver built from the claim's candidate order, over every
host, including ones whose resolver throws. -/
theorem tryGetLinkTarget_eq_resolverSpec (h : Host) (el : Elem) (sourcePath : String) :
    tryGetLinkTarget h el sourcePath = resolverSpec h el sourcePath := by
  unfold tryGetLinkTarget resolverSpec resolverSpecCandidates resolveStep1 resolveAttrStep
    resolveStep3
  cases hu : el.classes.contains "cm-underline" <;>
  cases ht : jsTruthyStr el.text <;>
  cases hd : jsTruthyStr (getAttr el "data-href") <;>
  cases hh : jsTruthyStr (getAttr el "href") <;>
    (simp [hu, ht, hd, hh, List.findSome?]) <;>
    (cases tryResolve h (cleanLinkPath h.decodeOk (el.text.getD "") true) sourcePath <;>
     cases tryResolve h (cleanLinkPath h.decodeOk ((getAttr el "data-href").getD "") false)
       sourcePath <;>
     cases tryResolve h (cleanLinkPath h.decodeOk ((getAttr el "href").getD "") false)
       sourcePath <;> rfl)

/-- C7: `saveSettings` refuses invalid settings atomically: the persisted
mapping is replaced by the current settings exactly when all four validity
checks pass, is left unchanged otherwise, and a warning is emitted exactly
when the save is refused. -/
theorem saveSettings_atomic_validation (adapterExists : String → Bool)
    (s : PeopleTrackerSettings) (persisted : Option PeopleTrackerSettings) :
    (saveSettings adapterExists s persisted).1
        = (if saveValid adapterExists s = true then some s else persisted)
      ∧ (saveSettings adapterExists s persisted).2.isEmpty = saveValid adapterExists s := by
  unfold saveSettings saveValid
  by_cases h1 : s.avatarFolderPath = ""
  · simp [h1]
  · by_cases h2 : s.peopleFolderPath = ""
    · simp [h1, h2]
    · cases h3 : adapterExists s.avatarFolderPath with
      | false => simp [h1, h2, h3]
      | true =>
        cases h4 : adapterExists s.peopleFolderPath with
        | false => simp [h1, h2, h3, h4]
        | true => simp [h1, h2, h3, h4]

/-- C9: the decorator's writes are confined to the documented surface: for
every store and every processed element, `processPersonLink` only sets the
`data-link-avatar` attribute, the `--data-link-avatar` custom property and
classes from `classWrites`, leaving every other attribute, class, style
property, the text, the node ids and the parent structure of every element
exactly unchanged, and never removing anything. -/
theorem processPersonLink_frame_confined (h : Host) (s : PeopleTrackerSettings) (d : Dom)
    (i : Nat) (c : FileCache) : FrameLe d (processPersonLink h s d i c).1 := by
  rw [processPersonLink_eq]
  by_cases hc : decorCond h s c = true
  · rw [if_pos hc]
    exact FrameLe_applyWrites h s d i (avatarNameOf c)
  · rw [if_neg hc]
    exact FrameLe_refl d

/-- C2 counterexample: with `peopleFolderPath = "Sets/People"`, the
classifier of the scan accepts the path `Sets/PeopleX/Bob.md`, although
that path neither starts with `Sets/People/` nor equals `Sets/People` —
refuting the claimed boundary-aware prefix matching. -/
theorem isPersonPath_boundary_cex :
    isPersonPath ⟨true, "", "Sets/People"⟩ "Sets/PeopleX/Bob.md" = true
      ∧ jsStartsWith "Sets/PeopleX/Bob.md" "Sets/People/" = false
      ∧ "Sets/PeopleX/Bob.md" ≠ "Sets/People" := by
  exact ⟨by decide, by decide, by decide⟩

/-- C2 amended: the classifier is a plain case-sensitive string-prefix test
(`path.startsWith(peopleFolderPath)`, no separator boundary), and a scan
step mutates the store only for candidates whose resolved target passes
that test. -/
theorem scanStep_decorates_only_prefix (h : Host) (s : PeopleTrackerSettings)
    (sourcePath : String) (acc : Dom × Nat) (cand : Nat)
    (hch : scanStep h s sourcePath acc cand ≠ acc) :
    ∃ el tf, findElem acc.1 cand = some el
      ∧ tryGetLinkTarget h el sourcePath = some tf
      ∧ isPersonPath s tf.path = true := by
  simp only [scanStep] at hch
  cases he : findElem acc.1 cand with
  | none => simp [he] at hch
  | some el =>
    simp only [he] at hch
    by_cases hsent : el.classes.contains "person-link-processed" = true
    · rw [if_pos hsent] at hch
      exact absurd rfl hch
    · rw [if_neg hsent] at hch
      cases htf : tryGetLinkTarget h el sourcePath with
      | none => simp [htf] at hch
      | some tf =>
        simp only [htf] at hch
        by_cases hp : isPersonPath s tf.path = true
        · exact ⟨el, tf, rfl, htf, hp⟩
        · rw [if_neg hp] at hch
          exact absurd rfl hch

/-- Witness for the amended C2 theorem at a concrete decorating scan
step. -/
theorem scanStep_decorates_only_prefix_witness :
    ∃ el tf, findElem (domPreview, (0 : Nat)).1 0 = some el
      ∧ tryGetLinkTarget hostAda el "" = some tf
      ∧ isPersonPath settingsOn tf.path = true :=
  scanStep_decorates_only_prefix hostAda settingsOn "" (domPreview, 0) 0 (by decide)

/-- C3: evaluation at the failing input: with avatars disabled, a view
sweep still decorates a person link — the scans of `main.ts` never read
`enableAvatars`. -/
theorem scan_ignores_enableAvatars_eval :
    settingsOff.enableAvatars = false
      ∧ hasClassAt (processAllLinksInView hostAda settingsOff domPreview "" true).1 0
          "person-link" = true
      ∧ hasClassAt (processAllLinksInView hostAda settingsOff domPreview "" true).1 0
          "person-link-processed" = true
      ∧ getAttrAt (processAllLinksInView hostAda settingsOff domPreview "" true).1 0
          "data-link-avatar" = some "app://vault/_Meta/Avatars/ada.png" := by
  exact ⟨rfl, by decide, by decide, by decide⟩

/-- C1 counterexample: a person link whose note lacks the `avatar`
front-matter key is left entirely undecorated by the scan while avatars are
enabled — no default-SVG data URL is produced anywhere in `main.ts`. -/
theorem scan_missing_avatar_left_undecorated_cex :
    settingsOn.enableAvatars = true
      ∧ tryGetLinkTarget hostNoAvatar elPreview "" = some ⟨"Sets/People/Ada.md"⟩
      ∧ isPersonPath settingsOn "Sets/People/Ada.md" = true
      ∧ hostNoAvatar.getFileCache ⟨"Sets/People/Ada.md"⟩ = some ⟨some ⟨none⟩⟩
      ∧ processAllLinksInView hostNoAvatar settingsOn domPreview "" true = (domPreview, 0)
      ∧ getAttrAt (processAllLinksInView hostNoAvatar settingsOn domPreview "" true).1 0
          "data-link-avatar" = none := by
  exact ⟨rfl, by decide, by decide, rfl, by decide, by decide⟩

/-- C1 amended: the decorator has no default-avatar fallback: when the
avatar name is missing or empty, the avatar folder is unset, or the adapter
reports the avatar path as missing, `processPersonLink` performs no write
at all and the element stays undecorated; only when all three checks pass
does the host element receive the host's resource URL in
`data-link-avatar`. -/
theorem processPersonLink_no_default_fallback (h : Host) (s : PeopleTrackerSettings)
    (d : Dom) (i : Nat) (c : FileCache) :
    (decorCond h s c = false → processPersonLink h s d i c = (d, 0))
      ∧ (decorCond h s c = true → (findElem d i).isSome = true →
          getAttrAt (processPersonLink h s d i c).1 (closestTarget d i) "data-link-avatar"
            = some (h.getResourcePath (s.avatarFolderPath ++ "/" ++ avatarNameOf c))) := by
  constructor
  · intro hc
    rw [processPersonLink_eq, if_neg (by simp [hc])]
  · intro hc hi
    rw [processPersonLink_eq, if_pos hc]
    exact (applyWrites_facts h s d i (avatarNameOf c) hi).1.1

/-- Witness for the amended C1 theorem: a decorated editor link receives
the resource URL. -/
theorem processPersonLink_no_default_fallback_witness :
    getAttrAt (processPersonLink hostAda settingsOn domEditor 1 cacheAda).1
        (closestTarget domEditor 1) "data-link-avatar"
      = some (hostAda.getResourcePath (settingsOn.avatarFolderPath ++ "/"
          ++ avatarNameOf cacheAda)) :=
  (processPersonLink_no_default_fallback hostAda settingsOn domEditor 1 cacheAda).2
    (by decide) (by decide)

/-- C6 counterexample: when the decorated element itself carries the
`cm-hmd-internal-link` class and sits inside another such container, the
full marker set lands on the element itself (`closest` is self-inclusive),
not on the ancestor — node 0, the ancestor container, stays untouched. -/
theorem decorator_nested_container_cex :
    (findElem domNested 0).map (fun e => e.classes.contains "cm-hmd-internal-link")
        = some true
      ∧ parentOf domNested 1 = some 0
      ∧ hasClassAt (processPersonLink hostAda settingsOn domNested 1 cacheAda).1 1
          "person-link-processed" = true
      ∧ getAttrAt (processPersonLink hostAda settingsOn domNested 1 cacheAda).1 0
          "data-link-avatar" = none
      ∧ hasClassAt (processPersonLink hostAda settingsOn domNested 1 cacheAda).1 0
          "data-link-icon" = false := by
  exact ⟨by decide, rfl, by decide, by decide, by decide⟩

/-- C6 amended: the full marker set — attribute, custom property and the
three classes — is applied to the closest self-or-ancestor element with the
link-container class (the element itself when there is none); exactly when
that closest container differs from the element, the inner element
additionally receives `data-link-icon` and `person-link`, and its sentinel
class is left as it was. -/
theorem decorator_closest_marker_placement (h : Host) (s : PeopleTrackerSettings)
    (d : Dom) (i : Nat) (c : FileCache) (hc : decorCond h s c = true)
    (hi : (findElem d i).isSome = true) :
    (getAttrAt (processPersonLink h s d i c).1 (closestTarget d i) "data-link-avatar"
        = some (h.getResourcePath (s.avatarFolderPath ++ "/" ++ avatarNameOf c))
      ∧ getStyleAt (processPersonLink h s d i c).1 (closestTarget d i) "--data-link-avatar"
        = some ("url(" ++ h.getResourcePath (s.avatarFolderPath ++ "/" ++ avatarNameOf c)
            ++ ")")
      ∧ hasClassAt (processPersonLink h s d i c).1 (closestTarget d i) "data-link-icon"
        = true
      ∧ hasClassAt (processPersonLink h s d i c).1 (closestTarget d i) "person-link" = true
      ∧ hasClassAt (processPersonLink h s d i c).1 (closestTarget d i)
          "person-link-processed" = true)
    ∧ (closestTarget d i ≠ i →
        hasClassAt (processPersonLink h s d i c).1 i "data-link-icon" = true
          ∧ hasClassAt (processPersonLink h s d i c).1 i "person-link" = true
          ∧ hasClassAt (processPersonLink h s d i c).1 i "person-link-processed"
            = hasClassAt d i "person-link-processed") := by
  rw [processPersonLink_eq, if_pos hc]
  exact applyWrites_facts h s d i (avatarNameOf c) hi

/-- Witness for the amended C6 theorem: in the editor DOM the container
receives the sentinel while the underline span receives the visual classes
and keeps its (absent) sentinel. -/
theorem decorator_closest_marker_placement_witness :
    hasClassAt (processPersonLink hostAda settingsOn domEditor 1 cacheAda).1 0
        "person-link-processed" = true
      ∧ hasClassAt (processPersonLink hostAda settingsOn domEditor 1 cacheAda).1 1
          "person-link" = true
      ∧ hasClassAt (processPersonLink hostAda settingsOn domEditor 1 cacheAda).1 1
          "person-link-processed" = hasClassAt domEditor 1 "person-link-processed" := by
  have happ := decorator_closest_marker_placement hostAda settingsOn domEditor 1 cacheAda
    (by decide) (by decide)
  have hct : closestTarget domEditor 1 = 0 := by decide
  have hin := happ.2 (by rw [hct]; decide)
  refine ⟨?_, hin.2.1, hin.2.2⟩
  rw [← hct]
  exact happ.1.2.2.2.2

/-- C4 counterexample: over the unchanged editor DOM, a second scan is not
write-free: the `cm-underline` candidate carries no sentinel (it lives on
the container), so the second sweep re-executes three DOM write calls —
though the resulting store is unchanged. -/
theorem second_scan_writes_cex :
    (processAllLinksInView hostAda settingsOn
        (processAllLinksInView hostAda settingsOn domEditor "" true).1 "" true).2 = 3
      ∧ (processAllLinksInView hostAda settingsOn
          (processAllLinksInView hostAda settingsOn domEditor "" true).1 "" true).1
        = (processAllLinksInView hostAda settingsOn domEditor "" true).1 := by
  exact ⟨by decide, by decide⟩

/-- C4 amended: decorating an element a second time with the same settings
and host state produces exactly the same store as decorating it once, and
the sentinel sits on the host element afterwards iff the decoration guards
passed or it was already there; a second scan, however, is not free of DOM
writes (see the counterexample). -/
theorem decorate_idempotent_state (h : Host) (s : PeopleTrackerSettings) (d : Dom)
    (i : Nat) (c : FileCache) (hi : (findElem d i).isSome = true) :
    (processPersonLink h s (processPersonLink h s d i c).1 i c).1
        = (processPersonLink h s d i c).1
      ∧ hasClassAt (processPersonLink h s d i c).1 (closestTarget d i)
          "person-link-processed"
        = (decorCond h s c || hasClassAt d (closestTarget d i) "person-link-processed") := by
  constructor
  · by_cases hc : decorCond h s c = true
    · have e1 : processPersonLink h s d i c = applyWrites h s d i (avatarNameOf c) := by
        rw [processPersonLink_eq, if_pos hc]
      have e2 : processPersonLink h s (applyWrites h s d i (avatarNameOf c)).1 i c
          = applyWrites h s (applyWrites h s d i (avatarNameOf c)).1 i (avatarNameOf c) := by
        rw [processPersonLink_eq, if_pos hc]
      rw [e1, e2]
      exact applyWrites_idem h s d i (avatarNameOf c)
    · have e1 : processPersonLink h s d i c = (d, 0) := by
        rw [processPersonLink_eq, if_neg hc]
      rw [e1]
      show (processPersonLink h s d i c).1 = d
      rw [e1]
  · by_cases hc : decorCond h s c = true
    · have e1 : processPersonLink h s d i c = applyWrites h s d i (avatarNameOf c) := by
        rw [processPersonLink_eq, if_pos hc]
      rw [e1, (applyWrites_facts h s d i (avatarNameOf c) hi).1.2.2.2.2, hc]
      simp
    · have e1 : processPersonLink h s d i c = (d, 0) := by
        rw [processPersonLink_eq, if_neg hc]
      have hc0 : decorCond h s c = false := by simpa using hc
      rw [e1, hc0]
      simp

/-- Witness for the amended C4 theorem at the concrete editor DOM. -/
theorem decorate_idempotent_state_witness :
    (processPersonLink hostAda settingsOn
        (processPersonLink hostAda settingsOn domEditor 1 cacheAda).1 1 cacheAda).1
      = (processPersonLink hostAda settingsOn domEditor 1 cacheAda).1 :=
  (decorate_idempotent_state hostAda settingsOn domEditor 1 cacheAda (by decide)).1

/-- C8 counterexample: a burst of two editor-change events 40 ms apart
executes five view sweeps in total — one immediate sweep per event, one per
untracked 100 ms follow-up, and a final tracked sweep — and right after the
burst three delayed scan-producing callbacks are pending at once. -/
theorem editor_burst_five_scans_cex :
    (runDriver 12 [0, 40] initDriver).scansRun = 5
      ∧ (runDriver 2 [0, 40] initDriver).pending.length = 3 := by
  exact ⟨by decide, by decide⟩

/-- C8 amended: only the tracked `processTimer` is debounced: in every
state the driver reaches from start-up, at most one tracked delayed sweep
timer is pending; the per-event untracked follow-ups are never cancelled
(see the counterexample for the resulting scan count). -/
theorem tracked_timer_debounced (fuel : Nat) (evs : List Nat) :
    scanTimerCount (runDriver fuel evs initDriver) ≤ 1 :=
  driverInv_count _ (runDriver_inv fuel evs initDriver DriverInv_init)

/-- C10: after `loadSettings`, every settings key is defined: for each of
the three settings keys, the loaded mapping holds the persisted value when
the host returned one for that key, and the default value otherwise —
including when nothing was ever persisted. -/
theorem loadSettings_defaults_per_key (ld : Option Obj)
    (hnd : ((ld.getD []).map Prod.fst).Nodup) (k : String)
    (hk : k = "enableAvatars" ∨ k = "avatarFolderPath" ∨ k = "peopleFolderPath") :
    getKV (loadSettings ld) k
        = (match getKV (ld.getD []) k with
            | some v => some v
            | none => getKV DEFAULT_SETTINGS_obj k)
      ∧ (getKV (loadSettings ld) k).isSome = true := by
  have h1 : getKV (objectAssign [] DEFAULT_SETTINGS_obj) k
      = getKV DEFAULT_SETTINGS_obj k := by
    rw [getKV_objectAssign _ _ _ (by decide)]
    cases getKV DEFAULT_SETTINGS_obj k <;> simp [getKV]
  unfold loadSettings
  rw [getKV_objectAssign _ _ _ hnd, h1]
  constructor
  · rfl
  · cases hg : getKV (ld.getD []) k with
    | some v => simp
    | none =>
      simp only
      rcases hk with rfl | rfl | rfl <;> decide

/-- Witness for the C10 theorem: with only `peopleFolderPath` persisted,
`enableAvatars` takes its default. -/
theorem loadSettings_defaults_per_key_witness :
    getKV (loadSettings (some [("peopleFolderPath", SVal.s "People")])) "enableAvatars"
        = (match getKV ([("peopleFolderPath", SVal.s "People")] : Obj) "enableAvatars" with
            | some v => some v
            | none => getKV DEFAULT_SETTINGS_obj "enableAvatars")
      ∧ (getKV (loadSettings (some [("peopleFolderPath", SVal.s "People")]))
          "enableAvatars").isSome = true :=
  loadSettings_defaults_per_key (some [("peopleFolderPath", SVal.s "People")])
    (by decide) "enableAvatars" (Or.inl rfl)

end PeopleTracker
